import Mathlib

/-!
# The sequential task runner of `ci-cd-pipes`

Shallow embedding of `utils/tasks.go` (the task queue, its drain loop, command
execution and the line forwarding loop) and of the response check of
`update-docker-hub-readme/pipe/tasks.go`, followed by the properties proved
about them.

Conventions of the embedding.

* The process-wide variable `TaskList` and everything else that inline
  functions and subprocesses can touch are passed explicitly (`Globals`).
* Every function returns the list of observable events it produced (`trace`)
  together with the way it ended (`Outcome`).  `Fatalln` of the logger writes
  its record and terminates the process: outcome `fatal`.
* Inline functions (`TaskFunc`) and subprocesses are the environment of the
  runner.  A `TaskFunc` is represented by an identifier; `Env.call` gives the
  effect of invoking it, `Env.proc` the answers of the operating system for a
  command.  Both may depend on, and change, the state of the process.
* The outer loop of `RunAllTasks` need not terminate when inline functions keep
  appending tasks; it is run for a bounded number of passes (`fuel`), and the
  outcome `running` tells that the bound was reached.
* The runner is embedded twice.  In namespace `utils` a slice is the sequence
  of its elements.  In namespace `utils.mem` the slices `Tasks` and `Commands`
  of a task are windows on backing arrays, and `append` writes in place when
  the capacity allows.  The two agree on every queue whose slices have no
  spare capacity (`utils.mem.RunAllTasks_agrees`); they differ when two tasks
  share a backing array with spare capacity.

The definitions come first (package `utils`, the same with backing arrays,
then package `pipe`), the properties after them.
-/

namespace utils

set_option linter.dupNamespace false

/-! ## Data model -/

/-- Severity of the logger (`logrus.Level`, an unsigned integer). -/
abbrev Level := Nat

/-- Level `logrus.PanicLevel`, the zero value of `logrus.Level`. -/
abbrev PanicLevel : Level := 0
/-- Level `logrus.FatalLevel`. -/
abbrev FatalLevel : Level := 1
/-- Level `logrus.ErrorLevel`. -/
abbrev ErrorLevel : Level := 2
/-- Level `logrus.WarnLevel`. -/
abbrev WarnLevel : Level := 3
/-- Level `logrus.InfoLevel`. -/
abbrev InfoLevel : Level := 4
/-- Level `logrus.DebugLevel`. -/
abbrev DebugLevel : Level := 5
/-- Level `logrus.TraceLevel`. -/
abbrev TraceLevel : Level := 6

/-- Struct `TaskMetadata` of `utils/tasks.go`. -/
structure TaskMetadata where
  Context : String
  Skip : Bool
  StdOutLogLevel : Level
  StdErrLogLevel : Level
deriving DecidableEq, Repr

/-- Inline function of a task (`func(*Task) error`), represented by an identifier. -/
abbrev TaskFunc := Nat

/-- The fields of `exec.Cmd` the runner and its formatting read and write.
`Err` is the error of the lookup of the path that `exec.Command` recorded
(the field is called `lookPathErr` before Go 1.19); it is nil for a path that
was resolved. -/
structure Cmd where
  Path : String
  Args : List String
  Err : Option String := none
deriving DecidableEq, Repr

/-- Type `Command` of `utils/tasks.go` (`*exec.Cmd`). -/
abbrev Command := Cmd

/-- Struct `Task` of `utils/tasks.go`.  A nil slice or nil pointer is `none`;
`Log` holds the `context` field of the bound log entry. -/
structure Task where
  Command : Option utils.Command
  Commands : Option (List utils.Command)
  Task : Option TaskFunc
  Tasks : Option (List TaskFunc)
  Metadata : TaskMetadata
  Log : Option String
deriving DecidableEq, Repr

/-- Struct `RunAllTasksOptions`: no fields. -/
structure RunAllTasksOptions where
deriving DecidableEq, Repr

/-- Value `DefaultRunAllTasksOptions`. -/
def DefaultRunAllTasksOptions : RunAllTasksOptions := {}

/-! ## Environment -/

/-- What one invocation of an inline function did: the error it returned, the
tasks it appended to `TaskList` through `AddTask` / `AddTasks` (the only
operations of the package that modify the queue), and the rest of the process
state it left behind.  The function is handed a pointer to the copy of the task
the loop works on; the inline functions of this repository only read it, and
the embedding hands the task over as a value: writes through that pointer are
outside the model, as is an inline function that ends the process itself. -/
structure CallResult (σ : Type) where
  err : Option String
  added : List Task
  world : σ

/-- Answers of the operating system for one command: the errors of
`cmd.StdoutPipe()`, `cmd.StderrPipe()`, `cmd.Start()` and `cmd.Wait()` (`none`
is nil), and the exit status carried by the error of `Wait` when it is an
`*exec.ExitError`. -/
structure ProcResult where
  stdoutPipe : Option String
  stderrPipe : Option String
  start : Option String
  wait : Option String
  exitStatus : Option Int
deriving DecidableEq, Repr

/-- The command ran and exited with status 0. -/
def ProcResult.ok (r : ProcResult) : Bool :=
  r.stdoutPipe.isNone && r.stderrPipe.isNone && r.start.isNone && r.wait.isNone

/-- Environment of the runner. -/
structure Env (σ : Type) where
  call : TaskFunc → Task → σ → CallResult σ
  proc : Cmd → σ → ProcResult × σ

/-- The two output streams of a subprocess. -/
inductive Stream where
  | stdout
  | stderr
deriving DecidableEq, Repr

/-- Observable events of a run, in the order they happen.
* `log c l m`: a record handed to the logger with `context` field `c`
  (`none`: no such field), level `l` and message `m`;
* `call f t err added`: inline function `f` was invoked on task `t`, returned
  `err` and appended `added`;
* `exec cmd m r`: `ExecuteAndPipeToLogger` was entered with `cmd` and metadata
  `m`, the system answering `r`;
* `capture s m l`: a forwarding loop was launched on stream `s` with metadata
  `m` and level `l`.  The records the two loops emit are not part of the trace
  of the runner: they are produced concurrently with it;
* `panic`: the goroutine panicked (the logger panics once it has written a
  record of level `PanicLevel`). -/
inductive Event where
  | log (context : Option String) (level : Level) (msg : String)
  | call (f : TaskFunc) (task : Task) (err : Option String) (added : List Task)
  | exec (cmd : Cmd) (context : TaskMetadata) (r : ProcResult)
  | capture (stream : Stream) (context : TaskMetadata) (level : Level)
  | panic
deriving DecidableEq, Repr

/-- Process state: the package variable `TaskList` and the rest. -/
structure Globals (σ : Type) where
  TaskList : List Task
  world : σ

/-- How a piece of the runner ended. `returned`: it returned to its caller;
`fatal`: `Fatalln` terminated the process; `panicked`: the Go runtime panicked
(slice bounds out of range); `running`: the bound on the number of passes of
the model was reached while the queue was still non-empty. -/
inductive Outcome (σ : Type) where
  | returned (g : Globals σ)
  | fatal (g : Globals σ)
  | panicked (g : Globals σ)
  | running (g : Globals σ)

/-- Events produced and final outcome. -/
structure Run (σ : Type) where
  trace : List Event
  outcome : Outcome σ

/-- Sequencing: `k` runs after `r` when `r` returned. -/
def Run.andThen {σ : Type} (r : Run σ) (k : Globals σ → Run σ) : Run σ :=
  match r.outcome with
  | .returned g => ⟨r.trace ++ (k g).trace, (k g).outcome⟩
  | _ => r

/-! ## Library functions -/

/-- Function `strings.Join`. -/
def Join (elems : List String) (sep : String) : String :=
  String.intercalate sep elems

/-- Modelled from the spec: `DeleteEmptyStringsFromSlice` is defined in a file of
package `utils` that is not part of the sources at hand.  The spec: "any
empty-string arguments are stripped immediately before execution", "arguments
`["run", "", "--flag", ""]` become `["run", "--flag"]`". -/
def DeleteEmptyStringsFromSlice (s : List String) : List String :=
  s.filter (fun str => str != "")

/-- Method `(*exec.Cmd).String` (Go 1.13 and later), which `fmt` calls when a
command is formatted with `%s`.  When the lookup of the path failed it is the
space-join of the arguments; otherwise it is the path followed by the
arguments after the first.  The method slices `c.Args[1:]`: on an empty
argument list it panics, and `fmt` prints the recovered panic instead. -/
def Cmd.String (c : Cmd) : String :=
  match c.Err with
  | some _ => Join c.Args " "
  | none =>
    match c.Args with
    | [] => "%!s(PANIC=String method: runtime error: slice bounds out of range [1:0])"
    | _ :: rest => rest.foldl (fun b a => b ++ " " ++ a) c.Path

/-! ## `utils/tasks.go` -/

/-- Function `AddTask`: the new value of `TaskList` (also the value returned). -/
def AddTask (TaskList : List Task) (command : Task) : List Task :=
  TaskList ++ [command]

/-- Function `AddTasks`: the new value of `TaskList` (also the value returned). -/
def AddTasks (TaskList : List Task) (commands : List Task) : List Task :=
  TaskList ++ commands

/-- Function `runTasks`. -/
def runTasks {σ : Type} (env : Env σ) (task : Task) : List TaskFunc → Globals σ → Run σ
  | [], g => ⟨[], .returned g⟩
  | taskFunc :: rest, g =>
    let r := env.call taskFunc task g.world
    let g1 : Globals σ := ⟨AddTasks g.TaskList r.added, r.world⟩
    match r.err with
    | some err =>
      ⟨[.call taskFunc task (some err) r.added,
        .log (some "FAILED") FatalLevel ("$ Task > " ++ err)], .fatal g1⟩
    | none =>
      Run.andThen ⟨[.call taskFunc task none r.added], .returned g1⟩ (runTasks env task rest)

/-- Function `CreateCommandReaders`: the error it returns (`none` is nil). -/
def CreateCommandReaders (r : ProcResult) : Option String :=
  match r.stdoutPipe with
  | some err => some ("Failed creating command stdout pipe: " ++ err)
  | none =>
    match r.stderrPipe with
    | some err => some ("Failed creating command stderr pipe: " ++ err)
    | none => none

/-- How `ExecuteAndPipeToLogger` ended: it returned an error value, or the
process was terminated by `Fatalln`. -/
inductive ExecOutcome where
  | returned (err : Option String)
  | fatal
deriving DecidableEq, Repr

/-- Function `ExecuteAndPipeToLogger`, given the answers `r` of the system. -/
def ExecuteAndPipeToLogger (r : ProcResult) (cmd : Cmd) (context : TaskMetadata) :
    List Event × ExecOutcome :=
  match CreateCommandReaders r with
  | some err => ([.exec cmd context r, .log none FatalLevel err], .fatal)
  | none =>
    match r.start with
    | some _ =>
      ([.exec cmd context r,
        .log (some "FAILED") FatalLevel ("Can not start the command: " ++ cmd.String)], .fatal)
    | none =>
      let launched : List Event :=
        [.exec cmd context r,
         .capture .stdout context context.StdOutLogLevel,
         .capture .stderr context context.StdErrLogLevel]
      match r.wait with
      | some err =>
        match r.exitStatus with
        | some status =>
          (launched ++ [.log (some "EXIT") DebugLevel ("Exit Status: " ++ toString status)],
            .returned (some err))
        | none => (launched, .returned (some err))
      | none => (launched, .returned none)

/-- Function `runCommands`. -/
def runCommands {σ : Type} (env : Env σ) (task : Task) : List Command → Globals σ → Run σ
  | [], g => ⟨[], .returned g⟩
  | command :: rest, g =>
    let cmd := Join command.Args " "
    let command1 : Cmd := { command with Args := DeleteEmptyStringsFromSlice command.Args }
    let p := env.proc command1 g.world
    let g1 : Globals σ := ⟨g.TaskList, p.2⟩
    let e := ExecuteAndPipeToLogger p.1 command1 task.Metadata
    match e.2 with
    | .fatal => ⟨.log (some "RUN") InfoLevel ("$ " ++ cmd) :: e.1, .fatal g1⟩
    | .returned (some err) =>
      ⟨.log (some "RUN") InfoLevel ("$ " ++ cmd) :: e.1 ++
        [.log (some "FAILED") FatalLevel ("$ " ++ cmd ++ " > " ++ err)], .fatal g1⟩
    | .returned none =>
      Run.andThen
        ⟨.log (some "RUN") InfoLevel ("$ " ++ cmd) :: e.1 ++
          [.log (some "FINISH") InfoLevel cmd], .returned g1⟩
        (runCommands env task rest)

/-- Body of the inner loop of `RunAllTasks` up to, and without, the statement
`TaskList = TaskList[1:]`.  A slice is identified here with the elements it
shows, so `append` yields the elements followed by the new one and touches
nothing else.  That is what Go does for a nil slice, for a slice without spare
capacity (a slice literal) and for a slice whose backing array no other task
is on.  With spare capacity Go stores the element in place, which a task on
the same backing array observes: `utils.mem.RunAllTasks.iteration` models
that. -/
def RunAllTasks.iteration {σ : Type} (env : Env σ) (task : Task) (g : Globals σ) : Run σ :=
  let task : Task :=
    if task.Metadata.StdOutLogLevel == 0 then
      { task with Metadata := { task.Metadata with StdOutLogLevel := InfoLevel } }
    else task
  let task : Task :=
    if task.Metadata.StdErrLogLevel == 0 then
      { task with Metadata := { task.Metadata with StdErrLogLevel := WarnLevel } }
    else task
  let task : Task := { task with Log := some task.Metadata.Context }
  if task.Metadata.Skip != true then
    let task : Task := if task.Tasks == none then { task with Tasks := some [] } else task
    let task : Task :=
      match task.Task with
      | some f => { task with Tasks := some (task.Tasks.getD [] ++ [f]) }
      | none => task
    Run.andThen (runTasks env task (task.Tasks.getD []) g) (fun g =>
      let task : Task := if task.Commands == none then { task with Commands := some [] } else task
      let task : Task :=
        match task.Command with
        | some c => { task with Commands := some (task.Commands.getD [] ++ [c]) }
        | none => task
      runCommands env task (task.Commands.getD []) g)
  else
    ⟨[.log none WarnLevel ("Task skipped: " ++ task.Metadata.Context)], .returned g⟩

/-- Inner loop of `RunAllTasks`: `for _, task := range TaskList`, over the
elements `snapshot` the queue held when the loop was entered.  Slicing an
empty queue with `[1:]` is a runtime panic. -/
def RunAllTasks.range {σ : Type} (env : Env σ) : List Task → Globals σ → Run σ
  | [], g => ⟨[], .returned g⟩
  | task :: rest, g =>
    Run.andThen (RunAllTasks.iteration env task g) (fun g1 =>
      match g1.TaskList with
      | [] => ⟨[], .panicked g1⟩
      | _ :: tl => RunAllTasks.range env rest ⟨tl, g1.world⟩)

/-- Outer loop of `RunAllTasks`: `for len(TaskList) != 0`, for at most `fuel`
passes. -/
def RunAllTasks.loop {σ : Type} (env : Env σ) : Nat → Globals σ → Run σ
  | 0, g => if g.TaskList.length != 0 then ⟨[], .running g⟩ else ⟨[], .returned g⟩
  | fuel + 1, g =>
    if g.TaskList.length != 0 then
      Run.andThen (RunAllTasks.range env g.TaskList g) (RunAllTasks.loop env fuel)
    else ⟨[], .returned g⟩

/-- Function `RunAllTasks`. -/
def RunAllTasks {σ : Type} (env : Env σ) (_options : RunAllTasksOptions) (fuel : Nat)
    (g : Globals σ) : Run σ :=
  if g.TaskList.length == 0 then
    ⟨[.log (some "COMMAND") FatalLevel "Task list is empty!"], .fatal g⟩
  else RunAllTasks.loop env fuel g

/-- Method `(*bufio.Reader).ReadString` on a reader whose remaining input is
the argument: the bytes up to and including the first `delim` and the input
left, or `none` when the input ends before a delimiter is found. -/
def ReadString.scan (delim : Char) : List Char → Option (List Char × List Char)
  | [] => none
  | c :: cs =>
    if c = delim then some ([c], cs)
    else
      match ReadString.scan delim cs with
      | some (line, rest) => some (c :: line, rest)
      | none => none

/-- Method `(*bufio.Reader).ReadString`: the string returned, the input left
and whether the error is non-nil.  At the end of the input the bytes read so
far are returned together with `io.EOF`. -/
def ReadString (reader : List Char) (delim : Char) : String × List Char × Bool :=
  match ReadString.scan delim reader with
  | some (line, rest) => (String.mk line, rest, false)
  | none => (String.mk reader, [], true)

/-- Loop of `HandleOutputStreamReader`, for at most `fuel` calls of
`ReadString`; `none` when the bound is reached.  `log.Logln(level, str)` hands
the record to the logger, which panics after writing a record of level
`PanicLevel` or below: the loop then ends with the first line. -/
def HandleOutputStreamReader.loop (log : Option String) (level : Level) :
    Nat → List Char → Option (List Event)
  | 0, _ => none
  | fuel + 1, reader =>
    match ReadString reader '\n' with
    | (_, _, true) => some []
    | (str, reader1, false) =>
      if level ≤ PanicLevel then some [.log log level str, .panic]
      else
        match HandleOutputStreamReader.loop log level fuel reader1 with
        | some records => some (.log log level str :: records)
        | none => none

/-- Function `HandleOutputStreamReader` on a stream that delivers `reader`
and then ends: the records handed to the logger. -/
def HandleOutputStreamReader (fuel : Nat) (reader : List Char) (context : TaskMetadata)
    (level : Level) : Option (List Event) :=
  let log : Option String := if context.Context != "" then some context.Context else none
  HandleOutputStreamReader.loop log level fuel reader

/-! ## Reading a trace -/

/-- An executed step: an inline function or a command, with the metadata of
the task it ran for. -/
inductive Step where
  | func (f : TaskFunc) (context : TaskMetadata)
  | command (cmd : Cmd) (context : TaskMetadata)
deriving DecidableEq, Repr

/-- The step an event stands for, if it is the execution of one. -/
def Event.step? : Event → Option Step
  | .call f t _ _ => some (.func f t.Metadata)
  | .exec c m _ => some (.command c m)
  | _ => none

/-- The executed steps of a trace, in order. -/
def steps (trace : List Event) : List Step :=
  trace.filterMap Event.step?

/-- The event is the execution of a step that failed: an inline function that
returned an error, or a command for which a pipe, the start or the wait
failed. -/
def Event.failed : Event → Bool
  | .call _ _ err _ => err.isSome
  | .exec _ _ r => !r.ok
  | _ => false

/-- The tasks an event appended to the queue. -/
def Event.added : Event → List Task
  | .call _ _ _ added => added
  | _ => []

/-- The tasks appended to the queue by the inline functions of a trace. -/
def appended (trace : List Event) : List Task :=
  trace.flatMap Event.added

/-- The record `RunAllTasks` logs for an empty queue. -/
def emptyRecord : Event :=
  .log (some "COMMAND") FatalLevel "Task list is empty!"

/-- Metadata of a task after the substitution of the default severities. -/
def normalize (m : TaskMetadata) : TaskMetadata :=
  { m with
    StdOutLogLevel := if m.StdOutLogLevel = 0 then InfoLevel else m.StdOutLogLevel
    StdErrLogLevel := if m.StdErrLogLevel = 0 then WarnLevel else m.StdErrLogLevel }

/-- Inline functions of a task: the listed ones followed by the primary one. -/
def functionsOf (t : Task) : List TaskFunc :=
  t.Tasks.getD [] ++ t.Task.toList

/-- Commands of a task: the listed ones followed by the primary one. -/
def commandsOf (t : Task) : List Command :=
  t.Commands.getD [] ++ t.Command.toList

/-- The task as its inline functions receive it. -/
def funcTask (t : Task) : Task :=
  { t with Metadata := normalize t.Metadata, Log := some t.Metadata.Context,
           Tasks := some (functionsOf t) }

/-- The task as `runCommands` receives it. -/
def cmdTask (t : Task) : Task :=
  { funcTask t with Commands := some (commandsOf t) }

/-- The command as `runCommands` hands it to execution. -/
def stripped (c : Cmd) : Cmd :=
  { c with Args := DeleteEmptyStringsFromSlice c.Args }

/-- The steps of a task in the order the claims give: nothing for a skipped
task, otherwise its inline functions and then its commands. -/
def stepsOf (t : Task) : List Step :=
  if t.Metadata.Skip then []
  else
    (functionsOf t).map (fun f => Step.func f (normalize t.Metadata)) ++
    (commandsOf t).map (fun c => Step.command (stripped c) (normalize t.Metadata))

/-- Every inline function and every command of the task succeeds, whatever
the state of the process, unless the task is skipped. -/
def succeeds {σ : Type} (env : Env σ) (t : Task) : Prop :=
  t.Metadata.Skip = false →
    (∀ f ∈ functionsOf t, ∀ w, (env.call f (funcTask t) w).err = none) ∧
    (∀ c ∈ commandsOf t, ∀ w, (env.proc (stripped c) w).1.ok = true)

/-- No inline function of the task appends to the queue, unless the task is
skipped. -/
def quiet {σ : Type} (env : Env σ) (t : Task) : Prop :=
  t.Metadata.Skip = false →
    ∀ f ∈ functionsOf t, ∀ w, (env.call f (funcTask t) w).added = []

/-- After a failed step no further step is executed. -/
def failStop : List Event → Prop
  | [] => True
  | x :: rest => (x.failed = true → ∀ e ∈ rest, e.step? = none) ∧ failStop rest

/-- Every command that ran and exited with status 0 is followed by the launch
of its two forwarding loops and a record under the context "FINISH". -/
def finishFollows : List Event → Prop
  | [] => True
  | x :: rest =>
    (∀ cmd m r, x = .exec cmd m r → r.ok = true →
      ∃ line post, rest = .capture .stdout m m.StdOutLogLevel ::
        .capture .stderr m m.StdErrLogLevel :: .log (some "FINISH") InfoLevel line :: post) ∧
    finishFollows rest

/-- Invariant of the traces of the runner: it stops at the first failed step,
ends fatally exactly when a step failed, and then ends with a record of level
fatal. -/
def Run.sound {σ : Type} (r : Run σ) : Prop :=
  failStop r.trace ∧ finishFollows r.trace ∧
  ((∃ e ∈ r.trace, e.failed = true) ↔ ∃ g, r.outcome = .fatal g) ∧
  (∀ g, r.outcome = .fatal g → ∃ c m, r.trace.getLast? = some (.log c FatalLevel m))

/-- Invariant of the queue: a piece of the runner entered with queue `base`
returns with `base` followed by the tasks appended meanwhile, and never panics. -/
def Run.steady {σ : Type} (base : List Task) (r : Run σ) : Prop :=
  (∀ g, r.outcome = .returned g → g.TaskList = base ++ appended r.trace) ∧
  (∀ g, r.outcome ≠ .panicked g)

/-- Environment in which inline function 1 fails with "boom" and the command
`/bin/false` exits with status 1; everything else succeeds. -/
def failingEnv : Env Unit :=
  ⟨fun f _ w => ⟨if f = 1 then some "boom" else none, [], w⟩,
   fun c w => (if c.Path = "/bin/false" then ⟨none, none, none, some "exit status 1", some 1⟩
     else ⟨none, none, none, none, none⟩, w)⟩

/-- Condition on an event `x` of the trace of `runCommands` and the events
`rest` after it: when `rest` starts with the execution of a command, `x` is the
record under "RUN" of a declared command `c`, the command executed is `c` with
its arguments stripped, a returned error is reported by a last record that
carries the command line of `c`, a success by a record under "FINISH" that
carries it, and when `ExecuteAndPipeToLogger` ends the process itself its
events are the last ones. -/
def blockHead (task : Task) (cs : List Command) (x : Event) (rest : List Event) : Prop :=
  ∀ cmd m r post, rest = .exec cmd m r :: post →
    ∃ c, c ∈ cs ∧ x = .log (some "RUN") InfoLevel ("$ " ++ Join c.Args " ") ∧
      cmd = stripped c ∧ m = task.Metadata ∧
      (∀ err, (ExecuteAndPipeToLogger r cmd m).2 = .returned (some err) →
        post.getLast? =
          some (.log (some "FAILED") FatalLevel ("$ " ++ Join c.Args " " ++ " > " ++ err))) ∧
      ((ExecuteAndPipeToLogger r cmd m).2 = .returned none →
        ∃ post1, post = .capture .stdout m m.StdOutLogLevel ::
          .capture .stderr m m.StdErrLogLevel ::
          .log (some "FINISH") InfoLevel (Join c.Args " ") :: post1) ∧
      ((ExecuteAndPipeToLogger r cmd m).2 = .fatal →
        .exec cmd m r :: post = (ExecuteAndPipeToLogger r cmd m).1)

/-- The condition `blockHead` at every position of a trace. -/
def commandBlocks (task : Task) (cs : List Command) : List Event → Prop
  | [] => True
  | x :: rest => blockHead task cs x rest ∧ commandBlocks task cs rest

/-- The label occurs in the record: it is the `context` field, or a substring
of the message. -/
def Event.mentions (label : String) : Event → Bool
  | .log c _ msg =>
    c == some label || msg.toList.tails.any (fun s => label.toList.isPrefixOf s)
  | _ => false

/-- A task with context "Verify" whose inline function fails in `failingEnv`. -/
def verifyTask : Task :=
  { Command := none, Commands := none, Task := some 1, Tasks := none,
    Metadata := ⟨"Verify", false, PanicLevel, PanicLevel⟩, Log := none }

/-- Environment in which the stdout pipe of `/bin/nopipe` cannot be created
and `/bin/missing` cannot be started; everything else succeeds. -/
def refusingEnv : Env Unit :=
  ⟨fun _ _ w => ⟨none, [], w⟩,
   fun c w =>
     (if c.Path = "/bin/nopipe" then ⟨some "exec: Stdout already set", none, none, none, none⟩
      else if c.Path = "/bin/missing" then ⟨none, none, some "no such file", none, none⟩
      else ⟨none, none, none, none, none⟩, w)⟩

/-- A task with context "Probe" whose command gets no stdout pipe in
`refusingEnv`. -/
def probeTask : Task :=
  { Command := some { Path := "/bin/nopipe", Args := ["nopipe", "-v"] }, Commands := none,
    Task := none, Tasks := none, Metadata := ⟨"Probe", false, PanicLevel, PanicLevel⟩,
    Log := none }

/-- A task with context "Launch" whose command cannot be started in
`refusingEnv`. -/
def launchTask : Task :=
  { Command := some { Path := "/bin/missing", Args := ["missing", "", "--x"] },
    Commands := none, Task := none, Tasks := none,
    Metadata := ⟨"Launch", false, PanicLevel, PanicLevel⟩, Log := none }

/-- A task with context "Check" whose command fails in `failingEnv`. -/
def checkTask : Task :=
  { Command := some { Path := "/bin/false", Args := ["false", "", "--now"] }, Commands := none, Task := none,
    Tasks := none, Metadata := ⟨"Check", false, PanicLevel, PanicLevel⟩, Log := none }

/-- The event is a record of level fatal. -/
def Event.isFatal : Event → Bool
  | .log _ l _ => l == FatalLevel
  | _ => false

/-- A record of level fatal is the last event of the trace. -/
def fatalLast : List Event → Prop
  | [] => True
  | x :: rest => (x.isFatal = true → rest = []) ∧ fatalLast rest

/-- Invariant of the traces of the runner: a record of level fatal ends the
trace, and the run with it. -/
def Run.oneFatal {σ : Type} (r : Run σ) : Prop :=
  fatalLast r.trace ∧ ((∃ e ∈ r.trace, e.isFatal = true) → ∃ g, r.outcome = .fatal g)

/-! ## Example environments and tasks -/

/-- A skipped task with an inline function and a command. -/
def skippedTask : Task :=
  { Command := some { Path := "/bin/rm", Args := ["rm", "-rf", "dist"] }, Commands := none, Task := some 7,
    Tasks := none, Metadata := ⟨"Clean", true, PanicLevel, PanicLevel⟩, Log := none }

/-- A task with two listed functions, a primary function, one listed command
and a primary command. -/
def buildTask : Task :=
  { Command := some { Path := "/bin/echo", Args := ["echo", "", "done"] },
    Commands := some [{ Path := "/usr/bin/make", Args := ["make", "", "all"] }], Task := some 3,
    Tasks := some [1, 2], Metadata := ⟨"Build", false, DebugLevel, ErrorLevel⟩, Log := none }

/-- A task appended while the queue is drained. -/
def followUpTask : Task :=
  { Command := none, Commands := some [{ Path := "/bin/true", Args := ["true"] }], Task := some 1,
    Tasks := none, Metadata := ⟨"Follow up", false, PanicLevel, PanicLevel⟩, Log := none }

/-- Environment in which inline function 0 appends `followUpTask` and every
function and command succeeds. -/
def appendingEnv : Env Unit :=
  ⟨fun f _ w => ⟨none, if f = 0 then [followUpTask] else [], w⟩,
   fun _ w => (⟨none, none, none, none, none⟩, w)⟩

/-- Environment in which every inline function returns nil and appends
nothing, and every command exits with status 0. -/
def quietEnv : Env Unit :=
  ⟨fun _ _ w => ⟨none, [], w⟩, fun _ w => (⟨none, none, none, none, none⟩, w)⟩

/-- A task that declares `logrus.PanicLevel` for both streams, with one inline
function and one command. -/
def panicLevelTask : Task :=
  { Command := some { Path := "/bin/ls", Args := ["ls"] }, Commands := none, Task := some 0, Tasks := none,
    Metadata := ⟨"List", false, PanicLevel, PanicLevel⟩, Log := none }

end utils

namespace utils.mem

/-! ## `utils/tasks.go` with the backing arrays of the slices

The definitions of `utils` above identify a slice with the elements it shows.
Go's `append` stores the new element in place when the slice has spare
capacity, and another slice on the same backing array then shows it.  The
definitions below repeat the runner with slices as windows on backing arrays,
so that this effect of the two `append` statements of `RunAllTasks` can be
traced.  A task here is the Go value (`Tasks` and `Commands` are slice
headers); inline functions still observe a task through its elements
(`Task.view`) and do not write to the backing arrays. -/

set_option linter.dupNamespace false

/-- A non-nil Go slice: the backing array and the index of its first cell, its
length and its capacity. -/
structure Slice where
  array : Nat
  offset : Nat
  len : Nat
  cap : Nat
deriving DecidableEq, Repr

/-- The elements a slice shows in the cells `cells` of the backing arrays; a
nil slice (`none`) shows none. -/
def elements {α : Type} (cells : Nat → Nat → α) : Option Slice → List α
  | none => []
  | some s => (List.range s.len).map (fun i => cells s.array (s.offset + i))

/-- Built-in `append(s, x)`: the elements of the slice it returns, and the cells
after it.  With spare capacity (`len < cap`) the element is stored in place, in
the cell after the last element of `s`.  Otherwise the elements are copied to a
new array that only the returned slice refers to, and no existing cell
changes. -/
def append {α : Type} (cells : Nat → Nat → α) (s : Option Slice) (x : α) :
    List α × (Nat → Nat → α) :=
  match s with
  | none => ([x], cells)
  | some s =>
    if s.len < s.cap then
      (elements cells (some s) ++ [x],
        fun a i => if a = s.array ∧ i = s.offset + s.len then x else cells a i)
    else (elements cells (some s) ++ [x], cells)

/-- Struct `Task` of `utils/tasks.go` with its two slices as slice headers. -/
structure Task where
  Command : Option utils.Command
  Commands : Option Slice
  Task : Option TaskFunc
  Tasks : Option Slice
  Metadata : TaskMetadata
  Log : Option String
deriving DecidableEq, Repr

/-- The cells of the backing arrays of the `[]TaskFunc` and `[]Command`
slices. -/
structure Memory where
  funcs : Nat → Nat → TaskFunc
  cmds : Nat → Nat → Command

/-- The task as its elements show it. -/
def Task.view (m : Memory) (t : mem.Task) : utils.Task :=
  { Command := t.Command
    Commands := t.Commands.map (fun s => elements m.cmds (some s))
    Task := t.Task
    Tasks := t.Tasks.map (fun s => elements m.funcs (some s))
    Metadata := t.Metadata
    Log := t.Log }

/-- What one invocation of an inline function did (see `utils.CallResult`); the
tasks it appends are Go values. -/
structure CallResult (σ : Type) where
  err : Option String
  added : List Task
  world : σ

/-- Environment of the runner (see `utils.Env`). -/
structure Env (σ : Type) where
  call : TaskFunc → utils.Task → σ → CallResult σ
  proc : Cmd → σ → ProcResult × σ

/-- Process state: the package variable `TaskList`, the backing arrays and the
rest. -/
structure Globals (σ : Type) where
  TaskList : List Task
  memory : Memory
  world : σ

/-- How a piece of the runner ended (see `utils.Outcome`). -/
inductive Outcome (σ : Type) where
  | returned (g : Globals σ)
  | fatal (g : Globals σ)
  | panicked (g : Globals σ)
  | running (g : Globals σ)

/-- Events produced and final outcome. -/
structure Run (σ : Type) where
  trace : List Event
  outcome : Outcome σ

/-- The piece of the runner returned to its caller. -/
def Outcome.isReturned {σ : Type} : Outcome σ → Bool
  | .returned _ => true
  | _ => false

/-- The state the piece of the runner ended in. -/
def Outcome.state {σ : Type} : Outcome σ → Globals σ
  | .returned g => g
  | .fatal g => g
  | .panicked g => g
  | .running g => g

/-- Sequencing: `k` runs after `r` when `r` returned. -/
def Run.andThen {σ : Type} (r : Run σ) (k : Globals σ → Run σ) : Run σ :=
  match r.outcome with
  | .returned g => ⟨r.trace ++ (k g).trace, (k g).outcome⟩
  | _ => r

/-- Function `AddTask`. -/
def AddTask (TaskList : List Task) (command : Task) : List Task :=
  TaskList ++ [command]

/-- Function `AddTasks`. -/
def AddTasks (TaskList : List Task) (commands : List Task) : List Task :=
  TaskList ++ commands

/-- Function `runTasks`; `taskFuncs` are the elements of the slice at entry (no
cell is written while the loop runs).  The event of a call records the
appended tasks as their elements show them. -/
def runTasks {σ : Type} (env : Env σ) (task : utils.Task) :
    List TaskFunc → Globals σ → Run σ
  | [], g => ⟨[], .returned g⟩
  | taskFunc :: rest, g =>
    let r := env.call taskFunc task g.world
    let g1 : Globals σ := ⟨AddTasks g.TaskList r.added, g.memory, r.world⟩
    let added := r.added.map (Task.view g.memory)
    match r.err with
    | some err =>
      ⟨[.call taskFunc task (some err) added,
        .log (some "FAILED") FatalLevel ("$ Task > " ++ err)], .fatal g1⟩
    | none =>
      Run.andThen ⟨[.call taskFunc task none added], .returned g1⟩ (runTasks env task rest)

/-- Function `runCommands`; `commands` are the elements of the slice at entry. -/
def runCommands {σ : Type} (env : Env σ) (task : utils.Task) :
    List Command → Globals σ → Run σ
  | [], g => ⟨[], .returned g⟩
  | command :: rest, g =>
    let cmd := Join command.Args " "
    let command1 : Cmd := { command with Args := DeleteEmptyStringsFromSlice command.Args }
    let p := env.proc command1 g.world
    let g1 : Globals σ := ⟨g.TaskList, g.memory, p.2⟩
    let e := ExecuteAndPipeToLogger p.1 command1 task.Metadata
    match e.2 with
    | .fatal => ⟨.log (some "RUN") InfoLevel ("$ " ++ cmd) :: e.1, .fatal g1⟩
    | .returned (some err) =>
      ⟨.log (some "RUN") InfoLevel ("$ " ++ cmd) :: e.1 ++
        [.log (some "FAILED") FatalLevel ("$ " ++ cmd ++ " > " ++ err)], .fatal g1⟩
    | .returned none =>
      Run.andThen
        ⟨.log (some "RUN") InfoLevel ("$ " ++ cmd) :: e.1 ++
          [.log (some "FINISH") InfoLevel cmd], .returned g1⟩
        (runCommands env task rest)

/-- Body of the inner loop of `RunAllTasks` up to, and without, the statement
`TaskList = TaskList[1:]`.  `[]TaskFunc{}` and `[]Command{}` are slices of
length and capacity 0.  `seen` is the loop variable `task` as its elements
show it after each assignment. -/
def RunAllTasks.iteration {σ : Type} (env : Env σ) (task : Task) (g : Globals σ) : Run σ :=
  let task : Task :=
    if task.Metadata.StdOutLogLevel == 0 then
      { task with Metadata := { task.Metadata with StdOutLogLevel := InfoLevel } }
    else task
  let task : Task :=
    if task.Metadata.StdErrLogLevel == 0 then
      { task with Metadata := { task.Metadata with StdErrLogLevel := WarnLevel } }
    else task
  let task : Task := { task with Log := some task.Metadata.Context }
  if task.Metadata.Skip != true then
    let task : Task :=
      if task.Tasks == none then { task with Tasks := some ⟨0, 0, 0, 0⟩ } else task
    let a : List TaskFunc × (Nat → Nat → TaskFunc) :=
      match task.Task with
      | some f => append g.memory.funcs task.Tasks f
      | none => (elements g.memory.funcs task.Tasks, g.memory.funcs)
    let g : Globals σ := { g with memory := { g.memory with funcs := a.2 } }
    let seen : utils.Task := { task.view g.memory with Tasks := some a.1 }
    Run.andThen (runTasks env seen a.1 g) (fun g =>
      let task : Task :=
        if task.Commands == none then { task with Commands := some ⟨0, 0, 0, 0⟩ } else task
      let b : List Command × (Nat → Nat → Command) :=
        match task.Command with
        | some c => append g.memory.cmds task.Commands c
        | none => (elements g.memory.cmds task.Commands, g.memory.cmds)
      let g : Globals σ := { g with memory := { g.memory with cmds := b.2 } }
      let seen : utils.Task := { seen with Commands := some b.1 }
      runCommands env seen b.1 g)
  else
    ⟨[.log none WarnLevel ("Task skipped: " ++ task.Metadata.Context)], .returned g⟩

/-- Inner loop of `RunAllTasks` (see `utils.RunAllTasks.range`). -/
def RunAllTasks.range {σ : Type} (env : Env σ) : List Task → Globals σ → Run σ
  | [], g => ⟨[], .returned g⟩
  | task :: rest, g =>
    Run.andThen (RunAllTasks.iteration env task g) (fun g1 =>
      match g1.TaskList with
      | [] => ⟨[], .panicked g1⟩
      | _ :: tl => RunAllTasks.range env rest ⟨tl, g1.memory, g1.world⟩)

/-- Outer loop of `RunAllTasks`, for at most `fuel` passes. -/
def RunAllTasks.loop {σ : Type} (env : Env σ) : Nat → Globals σ → Run σ
  | 0, g => if g.TaskList.length != 0 then ⟨[], .running g⟩ else ⟨[], .returned g⟩
  | fuel + 1, g =>
    if g.TaskList.length != 0 then
      Run.andThen (RunAllTasks.range env g.TaskList g) (RunAllTasks.loop env fuel)
    else ⟨[], .returned g⟩

/-- Function `RunAllTasks`. -/
def RunAllTasks {σ : Type} (env : Env σ) (_options : RunAllTasksOptions) (fuel : Nat)
    (g : Globals σ) : Run σ :=
  if g.TaskList.length == 0 then
    ⟨[.log (some "COMMAND") FatalLevel "Task list is empty!"], .fatal g⟩
  else RunAllTasks.loop env fuel g

/-! ## Slices as values -/

/-- No slice of the task has spare capacity, as for nil slices and slice
literals: `append` copies. -/
def Task.full (t : mem.Task) : Prop :=
  (∀ s, t.Tasks = some s → s.cap ≤ s.len) ∧ (∀ s, t.Commands = some s → s.cap ≤ s.len)

/-- The environment with the appended tasks as their elements show them in the
memory `m`. -/
def Env.view {σ : Type} (m : Memory) (env : Env σ) : utils.Env σ :=
  ⟨fun f t w =>
      ⟨(env.call f t w).err, (env.call f t w).added.map (Task.view m),
        (env.call f t w).world⟩,
    env.proc⟩

/-- The state with the tasks of the queue as their elements show them. -/
def Globals.view {σ : Type} (g : Globals σ) : utils.Globals σ :=
  ⟨g.TaskList.map (Task.view g.memory), g.world⟩

/-- The outcome with the tasks of the queue as their elements show them. -/
def Outcome.view {σ : Type} : Outcome σ → utils.Outcome σ
  | .returned g => .returned g.view
  | .fatal g => .fatal g.view
  | .panicked g => .panicked g.view
  | .running g => .running g.view

/-- The run `r` on backing arrays and the run `v` on values agree: same events,
same outcome on the elements of the tasks, and `r` leaves the memory `m` as it
is and the queue with tasks without spare capacity. -/
def Run.agrees {σ : Type} (m : Memory) (r : Run σ) (v : utils.Run σ) : Prop :=
  r.trace = v.trace ∧ r.outcome.view = v.outcome ∧ r.outcome.state.memory = m ∧
  ∀ t ∈ r.outcome.state.TaskList, t.full

/-! ## Two tasks on one backing array -/

/-- Environment in which every inline function returns nil and appends
nothing, and every command exits with status 0. -/
def quietEnv : Env Unit :=
  ⟨fun _ _ w => ⟨none, [], w⟩, fun _ w => (⟨none, none, none, none, none⟩, w)⟩

/-- Memory after `base := make([]TaskFunc, 1, 4); base[0] = F1` and
`append(base, F3)`, with `base` in array 1: cells 0 and 1 of the array hold
the functions 1 and 3. -/
def sharedMemory : Memory :=
  { funcs := fun a i => if a = 1 ∧ i = 0 then 1 else if a = 1 ∧ i = 1 then 3 else 0
    cmds := fun _ _ => { Path := "", Args := [] } }

/-- Task `Task{Tasks: base, Task: F2}`: the slice `base` shows function 1 and
has capacity 4. -/
def firstShared : Task :=
  { Command := none, Commands := none, Task := some 2, Tasks := some ⟨1, 0, 1, 4⟩,
    Metadata := ⟨"First", false, InfoLevel, WarnLevel⟩, Log := none }

/-- Task `Task{Tasks: append(base, F3), Task: F4}`: its slice is on the array of
`base` and shows the functions 1 and 3. -/
def secondShared : Task :=
  { Command := none, Commands := none, Task := some 4, Tasks := some ⟨1, 0, 2, 4⟩,
    Metadata := ⟨"Second", false, InfoLevel, WarnLevel⟩, Log := none }

/-- State in which `RunAllTasks` takes `secondShared` from the queue
`[firstShared, secondShared]`: the state the body returns with for
`firstShared`, the first task removed. -/
def afterFirstShared : Globals Unit :=
  match (RunAllTasks.iteration quietEnv firstShared
      ⟨[firstShared, secondShared], sharedMemory, ()⟩).outcome with
  | .returned g => ⟨g.TaskList.drop 1, g.memory, g.world⟩
  | _ => ⟨[], sharedMemory, ()⟩

end utils.mem

namespace pipe

/-! ## `update-docker-hub-readme/pipe/tasks.go` -/

/-- Fields of `DockerHubUpdateReadmeRequest` the task fills in. -/
structure DockerHubUpdateReadmeRequest where
  Readme : String
  Description : String
deriving DecidableEq, Repr

/-- Fields of `DockerHubUpdateReadmeResponse` the task reads. -/
structure DockerHubUpdateReadmeResponse where
  CanEdit : Bool
  Description : String
  FullDescription : String
deriving DecidableEq, Repr

/-- Fields of the configuration value `Pipe` the task reads: `Pipe.Readme.File`,
`Pipe.Readme.Repository`, `Pipe.Readme.Description`, `Pipe.DockerHub.Address`. -/
structure Plugin where
  ReadmeFile : String
  ReadmeRepository : String
  ReadmeDescription : String
  DockerHubAddress : String
deriving DecidableEq, Repr

/-- Collaborators of `TaskUpdateDockerReadme`: the file system, the JSON codec
and the HTTP client.  `send url body token` is the request built by
`http.NewRequest` with the authentication headers, sent with
`http.DefaultClient.Do`: an error, or the status code and the result of
reading the body. -/
structure Collaborators where
  readFile : String → Except String String
  marshal : DockerHubUpdateReadmeRequest → Except String String
  newRequest : String → Option String
  send : String → String → String → Except String (Int × Except String String)
  unmarshal : String → Except String DockerHubUpdateReadmeResponse

/-- How an inline function ended: it returned an error value (`none` is nil),
`Fatalln` terminated the process, or the Go runtime panicked. -/
inductive FuncOutcome where
  | returned (err : Option String)
  | fatal
  | panicked
deriving DecidableEq, Repr

/-- The statement `switch res.StatusCode` of `TaskUpdateDockerReadme` and the
`return nil` after it. -/
def TaskUpdateDockerReadme.statusSwitch (Pipe : Plugin) (log : Option String) (readme : String)
    (statusCode : Int) (b : DockerHubUpdateReadmeResponse) : List utils.Event × FuncOutcome :=
  if statusCode = 200 then
    if b.FullDescription != readme then
      ([.log log utils.FatalLevel
          "Uploaded README does not match with current repository README file."], .fatal)
    else if Pipe.ReadmeDescription != "" && b.Description != Pipe.ReadmeDescription then
      ([.log log utils.FatalLevel
          "Uploaded README does not match with current repository README file."], .fatal)
    else
      ([.log log utils.InfoLevel
          ("Successfully pushed readme file to: " ++ Pipe.ReadmeFile ++ " -> " ++
            Pipe.DockerHubAddress ++ "/" ++ Pipe.ReadmeRepository)], .returned none)
  else if statusCode = 404 then
    ([.log log utils.FatalLevel
        ("Repository does not exists: " ++ Pipe.DockerHubAddress ++ "/" ++
          Pipe.ReadmeRepository)], .fatal)
  else if !b.CanEdit then
    ([.log log utils.FatalLevel
        ("Given user credentials do not have permission to edit repository: " ++
          Pipe.DockerHubAddress ++ "/" ++ Pipe.ReadmeRepository)], .fatal)
  else
    ([.log log utils.FatalLevel
        ("Pushing readme failed with code: " ++ toString statusCode)], .fatal)

/-- Inline function of the task built by `TaskUpdateDockerReadme`: the records
it logs and the way it ends.  `token` is `Context.token`. -/
def TaskUpdateDockerReadme (Pipe : Plugin) (token : String) (deps : Collaborators)
    (t : utils.Task) : List utils.Event × FuncOutcome :=
  let log : Option String := some t.Metadata.Context
  let l1 : List utils.Event :=
    [.log log utils.DebugLevel ("Trying to read file: " ++ Pipe.ReadmeFile)]
  match deps.readFile Pipe.ReadmeFile with
  | .error err => (l1, .returned (some err))
  | .ok readme =>
    let l2 : List utils.Event := l1 ++
      [.log log utils.DebugLevel ("File read: " ++ Pipe.ReadmeFile),
       .log log utils.DebugLevel ("Running against repository: " ++ Pipe.DockerHubAddress ++
          "/" ++ Pipe.ReadmeRepository)]
    let update : DockerHubUpdateReadmeRequest := { Readme := readme, Description := "" }
    let update : DockerHubUpdateReadmeRequest :=
      if Pipe.ReadmeDescription != "" then
        { update with Description := Pipe.ReadmeDescription }
      else update
    match deps.marshal update with
    | .error err => (l2, .returned (some err))
    | .ok body =>
      let url := Pipe.DockerHubAddress ++ "/" ++ Pipe.ReadmeRepository ++ "/"
      match deps.newRequest url with
      | some _ => (l2, .panicked)
      | none =>
        match deps.send url body token with
        | .error err => (l2, .returned (some err))
        | .ok (statusCode, read) =>
          let l3 : List utils.Event := l2 ++
            [.log log utils.DebugLevel ("Status Code: " ++ toString statusCode)]
          match read with
          | .error err => (l3, .returned (some err))
          | .ok body =>
            let l4 : List utils.Event := l3 ++
              [.log log utils.DebugLevel ("Response body: " ++ body)]
            match deps.unmarshal body with
            | .error err =>
              (l4 ++ [.log log utils.ErrorLevel ("Response unexpected: " ++ body)],
                .returned (some err))
            | .ok b =>
              let s := TaskUpdateDockerReadme.statusSwitch Pipe log readme statusCode b
              (l4 ++ s.1, s.2)

/-! ## Example collaborators -/

/-- Collaborators for which the file holds `readme` and the registry answers
with `statusCode` and a body decoded as `b`. -/
def answering (readme : String) (statusCode : Int) (b : DockerHubUpdateReadmeResponse) :
    Collaborators :=
  { readFile := fun _ => .ok readme
    marshal := fun _ => .ok "request"
    newRequest := fun _ => none
    send := fun _ _ _ => .ok (statusCode, .ok "response")
    unmarshal := fun _ => .ok b }

/-- Task value the inline function is invoked on. -/
def updateTask : utils.Task :=
  { Command := none, Commands := none, Task := some 0, Tasks := some [0],
    Metadata := ⟨"DockerHub - update readme", false, utils.InfoLevel, utils.WarnLevel⟩,
    Log := some "DockerHub - update readme" }

end pipe

namespace utils

/-! ## Sequencing -/

theorem Run.andThen_returned {σ : Type} (tr : List Event) (g : Globals σ)
    (k : Globals σ → Run σ) :
    Run.andThen ⟨tr, .returned g⟩ k = ⟨tr ++ (k g).trace, (k g).outcome⟩ := rfl

theorem Run.andThen_of_returned {σ : Type} {r : Run σ} {g : Globals σ}
    (h : r.outcome = .returned g) (k : Globals σ → Run σ) :
    r.andThen k = ⟨r.trace ++ (k g).trace, (k g).outcome⟩ := by
  unfold Run.andThen
  rw [h]

theorem Run.andThen_of_not_returned {σ : Type} {r : Run σ}
    (h : ∀ g, r.outcome ≠ .returned g) (k : Globals σ → Run σ) :
    r.andThen k = r := by
  unfold Run.andThen
  split
  · next g hg => exact absurd hg (h g)
  · rfl

theorem Run.andThen_trace_forall {σ : Type} (P : Event → Prop) (r : Run σ)
    (k : Globals σ → Run σ) (hr : ∀ e ∈ r.trace, P e)
    (hk : ∀ g, ∀ e ∈ (k g).trace, P e) :
    ∀ e ∈ (r.andThen k).trace, P e := by
  unfold Run.andThen
  split
  · intro e he
    rcases List.mem_append.1 he with h | h
    · exact hr e h
    · exact hk _ e h
  · exact hr

/-! ## Shape of the events of each function -/

theorem runTasks_trace_shape {σ : Type} (env : Env σ) (task : Task) (fs : List TaskFunc)
    (g : Globals σ) :
    ∀ e ∈ (runTasks env task fs g).trace,
      (∃ f w, f ∈ fs ∧
        e = .call f task (env.call f task w).err (env.call f task w).added) ∨
      (∃ err, e = .log (some "FAILED") FatalLevel ("$ Task > " ++ err)) := by
  induction fs generalizing g with
  | nil => intro e he; simp [runTasks] at he
  | cons f rest ih =>
    intro e he
    simp only [runTasks] at he
    split at he
    · next err herr =>
      simp only [List.mem_cons, List.mem_singleton, List.not_mem_nil, or_false] at he
      rcases he with h | h
      · exact Or.inl ⟨f, g.world, List.mem_cons_self _ _, by rw [h, herr]⟩
      · exact Or.inr ⟨err, h⟩
    · next herr =>
      rw [Run.andThen_returned] at he
      simp only [List.singleton_append, List.mem_cons] at he
      rcases he with h | h
      · exact Or.inl ⟨f, g.world, List.mem_cons_self _ _, by rw [h, herr]⟩
      · rcases ih _ e h with ⟨f1, w, hf, h1⟩ | h1
        · exact Or.inl ⟨f1, w, List.mem_cons_of_mem _ hf, h1⟩
        · exact Or.inr h1

theorem ExecuteAndPipeToLogger_trace_shape (r : ProcResult) (cmd : Cmd)
    (context : TaskMetadata) :
    ∀ e ∈ (ExecuteAndPipeToLogger r cmd context).1,
      e = .exec cmd context r ∨
      e = .capture .stdout context context.StdOutLogLevel ∨
      e = .capture .stderr context context.StdErrLogLevel ∨
      (∃ msg, e = .log none FatalLevel msg) ∨
      (∃ msg, e = .log (some "FAILED") FatalLevel msg) ∨
      (∃ msg, e = .log (some "EXIT") DebugLevel msg) := by
  intro e he
  unfold ExecuteAndPipeToLogger at he
  split at he
  · simp at he; rcases he with h | h <;> simp [h]
  · split at he
    · simp at he; rcases he with h | h <;> simp [h]
    · split at he
      · split at he
        · simp at he; rcases he with h | h | h | h <;> simp [h]
        · simp at he; rcases he with h | h | h <;> simp [h]
      · simp at he; rcases he with h | h | h <;> simp [h]

theorem runCommands_trace_shape {σ : Type} (env : Env σ) (task : Task) (cs : List Command)
    (g : Globals σ) :
    ∀ e ∈ (runCommands env task cs g).trace,
      (∃ c w, c ∈ cs ∧
        e = .exec { c with Args := DeleteEmptyStringsFromSlice c.Args } task.Metadata
          (env.proc { c with Args := DeleteEmptyStringsFromSlice c.Args } w).1) ∨
      e = .capture .stdout task.Metadata task.Metadata.StdOutLogLevel ∨
      e = .capture .stderr task.Metadata task.Metadata.StdErrLogLevel ∨
      (∃ c, c ∈ cs ∧ e = .log (some "RUN") InfoLevel ("$ " ++ Join c.Args " ")) ∨
      (∃ c, c ∈ cs ∧ e = .log (some "FINISH") InfoLevel (Join c.Args " ")) ∨
      (∃ msg, e = .log none FatalLevel msg) ∨
      (∃ msg, e = .log (some "FAILED") FatalLevel msg) ∨
      (∃ msg, e = .log (some "EXIT") DebugLevel msg) := by
  induction cs generalizing g with
  | nil => intro e he; simp [runCommands] at he
  | cons c rest ih =>
    intro e he
    have hexec : e ∈ (ExecuteAndPipeToLogger
        (env.proc { c with Args := DeleteEmptyStringsFromSlice c.Args } g.world).1
        { c with Args := DeleteEmptyStringsFromSlice c.Args } task.Metadata).1 →
        (∃ c1 w, c1 ∈ c :: rest ∧
          e = .exec { c1 with Args := DeleteEmptyStringsFromSlice c1.Args } task.Metadata
            (env.proc { c1 with Args := DeleteEmptyStringsFromSlice c1.Args } w).1) ∨
        e = .capture .stdout task.Metadata task.Metadata.StdOutLogLevel ∨
        e = .capture .stderr task.Metadata task.Metadata.StdErrLogLevel ∨
        (∃ c1, c1 ∈ c :: rest ∧ e = .log (some "RUN") InfoLevel ("$ " ++ Join c1.Args " ")) ∨
        (∃ c1, c1 ∈ c :: rest ∧ e = .log (some "FINISH") InfoLevel (Join c1.Args " ")) ∨
        (∃ msg, e = .log none FatalLevel msg) ∨
        (∃ msg, e = .log (some "FAILED") FatalLevel msg) ∨
        (∃ msg, e = .log (some "EXIT") DebugLevel msg) := by
      intro hr
      rcases ExecuteAndPipeToLogger_trace_shape _ _ _ e hr with h | h | h | h | h | h
      · exact Or.inl ⟨c, g.world, List.mem_cons_self _ _, h⟩
      · exact Or.inr (Or.inl h)
      · exact Or.inr (Or.inr (Or.inl h))
      · exact Or.inr (Or.inr (Or.inr (Or.inr (Or.inr (Or.inl h)))))
      · exact Or.inr (Or.inr (Or.inr (Or.inr (Or.inr (Or.inr (Or.inl h))))))
      · exact Or.inr (Or.inr (Or.inr (Or.inr (Or.inr (Or.inr (Or.inr h))))))
    simp only [runCommands] at he
    split at he
    · simp only [List.mem_cons] at he
      rcases he with h | h
      · exact Or.inr (Or.inr (Or.inr (Or.inl ⟨c, List.mem_cons_self _ _, h⟩)))
      · exact hexec h
    · next err _ =>
      simp only [List.cons_append, List.mem_cons, List.mem_append, List.mem_singleton,
        List.not_mem_nil, or_false] at he
      rcases he with h | h | h
      · exact Or.inr (Or.inr (Or.inr (Or.inl ⟨c, List.mem_cons_self _ _, h⟩)))
      · exact hexec h
      · exact Or.inr (Or.inr (Or.inr (Or.inr (Or.inr (Or.inr (Or.inl ⟨_, h⟩))))))
    · rw [Run.andThen_returned] at he
      simp only [List.cons_append, List.mem_cons, List.mem_append, List.mem_singleton,
        List.not_mem_nil, or_false] at he
      rcases he with h | (h | h) | h
      · exact Or.inr (Or.inr (Or.inr (Or.inl ⟨c, List.mem_cons_self _ _, h⟩)))
      · exact hexec h
      · exact Or.inr (Or.inr (Or.inr (Or.inr (Or.inl ⟨c, List.mem_cons_self _ _, h⟩))))
      · rcases ih _ e h with ⟨c1, w, hc, h1⟩ | h1 | h1 | ⟨c1, hc, h1⟩ | ⟨c1, hc, h1⟩ | h1
        · exact Or.inl ⟨c1, w, List.mem_cons_of_mem _ hc, h1⟩
        · exact Or.inr (Or.inl h1)
        · exact Or.inr (Or.inr (Or.inl h1))
        · exact Or.inr (Or.inr (Or.inr (Or.inl ⟨c1, List.mem_cons_of_mem _ hc, h1⟩)))
        · exact Or.inr (Or.inr (Or.inr (Or.inr (Or.inl ⟨c1, List.mem_cons_of_mem _ hc, h1⟩))))
        · exact Or.inr (Or.inr (Or.inr (Or.inr (Or.inr h1))))

theorem RunAllTasks.iteration_skip {σ : Type} (env : Env σ) (t : Task) (g : Globals σ)
    (h : t.Metadata.Skip = true) :
    RunAllTasks.iteration env t g =
      ⟨[.log none WarnLevel ("Task skipped: " ++ t.Metadata.Context)], .returned g⟩ := by
  rcases t with ⟨cmd, cmds, f, fs, ⟨ctx, skip, so, se⟩, lg⟩
  simp only at h
  subst h
  unfold RunAllTasks.iteration
  by_cases h1 : so = 0 <;> by_cases h2 : se = 0 <;> simp [h1, h2]

theorem RunAllTasks.iteration_run {σ : Type} (env : Env σ) (t : Task) (g : Globals σ)
    (h : t.Metadata.Skip = false) :
    RunAllTasks.iteration env t g =
      Run.andThen (runTasks env (funcTask t) (functionsOf t) g)
        (fun g1 => runCommands env (cmdTask t) (commandsOf t) g1) := by
  rcases t with ⟨cmd, cmds, f, fs, ⟨ctx, skip, so, se⟩, lg⟩
  simp only at h
  subst h
  unfold RunAllTasks.iteration
  by_cases h1 : so = 0 <;> by_cases h2 : se = 0 <;> cases fs <;> cases f <;>
    cases cmds <;> cases cmd <;>
    simp [h1, h2, funcTask, cmdTask, functionsOf, commandsOf, normalize]

/-! ## Events of the drain loops -/

theorem RunAllTasks.range_trace_forall {σ : Type} (env : Env σ) (P : Event → Prop)
    (snapshot : List Task)
    (h : ∀ t ∈ snapshot, ∀ g, ∀ e ∈ (RunAllTasks.iteration env t g).trace, P e) :
    ∀ g, ∀ e ∈ (RunAllTasks.range env snapshot g).trace, P e := by
  induction snapshot with
  | nil => intro g e he; simp [RunAllTasks.range] at he
  | cons t rest ih =>
    intro g
    simp only [RunAllTasks.range]
    apply Run.andThen_trace_forall P _ _ (h t (List.mem_cons_self _ _) g)
    intro g1
    split
    · intro e he; simp at he
    · exact ih (fun t1 ht1 => h t1 (List.mem_cons_of_mem _ ht1)) _

theorem RunAllTasks.loop_trace_forall {σ : Type} (env : Env σ) (P : Event → Prop)
    (h : ∀ t g, ∀ e ∈ (RunAllTasks.iteration env t g).trace, P e) :
    ∀ fuel g, ∀ e ∈ (RunAllTasks.loop env fuel g).trace, P e := by
  intro fuel
  induction fuel with
  | zero =>
    intro g e he
    simp only [RunAllTasks.loop] at he
    split at he <;> simp at he
  | succ n ih =>
    intro g
    simp only [RunAllTasks.loop]
    split
    · exact Run.andThen_trace_forall P _ _
        (RunAllTasks.range_trace_forall env P _ (fun t _ => h t) _) (fun g1 => ih g1)
    · intro e he; simp at he

theorem RunAllTasks.iteration_trace_ne_emptyRecord {σ : Type} (env : Env σ) (t : Task)
    (g : Globals σ) : ∀ e ∈ (RunAllTasks.iteration env t g).trace, e ≠ emptyRecord := by
  cases hs : t.Metadata.Skip with
  | true =>
    rw [RunAllTasks.iteration_skip env t g hs]
    intro e he
    simp only [List.mem_singleton] at he
    simp [he, emptyRecord]
  | false =>
    rw [RunAllTasks.iteration_run env t g hs]
    apply Run.andThen_trace_forall
    · intro e he
      rcases runTasks_trace_shape env _ _ _ e he with ⟨f, w, _, h⟩ | ⟨err, h⟩ <;>
        simp [h, emptyRecord]
    · intro g1 e he
      rcases runCommands_trace_shape env _ _ _ e he with
        ⟨c, w, _, h⟩ | h | h | ⟨c, _, h⟩ | ⟨c, _, h⟩ | ⟨m, h⟩ | ⟨m, h⟩ | ⟨m, h⟩ <;>
        simp [h, emptyRecord]

/-! ## Runs in which every step succeeds -/

theorem steps_append (a b : List Event) : steps (a ++ b) = steps a ++ steps b := by
  simp [steps, List.filterMap_append]

theorem appended_append (a b : List Event) : appended (a ++ b) = appended a ++ appended b := by
  simp [appended, List.flatMap_append]

theorem appended_nil : appended [] = [] := rfl

theorem appended_cons (e : Event) (tr : List Event) :
    appended (e :: tr) = e.added ++ appended tr := by
  simp [appended, List.flatMap_cons]

theorem appended_eq_nil {tr : List Event} (h : ∀ e ∈ tr, e.added = []) : appended tr = [] := by
  induction tr with
  | nil => rfl
  | cons e rest ih =>
    have h1 : appended (e :: rest) = e.added ++ appended rest := by
      simp [appended, List.flatMap_cons]
    rw [h1, h e (List.mem_cons_self _ _), ih (fun x hx => h x (List.mem_cons_of_mem _ hx))]
    rfl

theorem runTasks_ok {σ : Type} (env : Env σ) (task : Task) (fs : List TaskFunc)
    (h : ∀ f ∈ fs, ∀ w, (env.call f task w).err = none) (g : Globals σ) :
    ∃ w, (runTasks env task fs g).outcome =
        .returned ⟨g.TaskList ++ appended (runTasks env task fs g).trace, w⟩ ∧
      steps (runTasks env task fs g).trace = fs.map (fun f => Step.func f task.Metadata) := by
  induction fs generalizing g with
  | nil => exact ⟨g.world, by simp [runTasks, appended], by simp [runTasks, steps]⟩
  | cons f rest ih =>
    have hf := h f (List.mem_cons_self _ _) g.world
    obtain ⟨w, hout, hst⟩ := ih (fun f1 h1 => h f1 (List.mem_cons_of_mem _ h1))
      ⟨AddTasks g.TaskList (env.call f task g.world).added, (env.call f task g.world).world⟩
    refine ⟨w, ?_, ?_⟩
    · simp only [runTasks, hf, Run.andThen_returned, hout]
      simp [appended, AddTasks, appended, List.flatMap_cons, Event.added]
    · simp only [runTasks, hf, Run.andThen_returned]
      rw [steps_append, hst]
      simp [steps, Event.step?]

theorem ExecuteAndPipeToLogger_ok {r : ProcResult} (h : r.ok = true) (cmd : Cmd)
    (context : TaskMetadata) :
    ExecuteAndPipeToLogger r cmd context =
      ([.exec cmd context r, .capture .stdout context context.StdOutLogLevel,
        .capture .stderr context context.StdErrLogLevel], .returned none) := by
  rcases r with ⟨a, b, c, d, x⟩
  simp only [ProcResult.ok, Bool.and_eq_true, Option.isNone_iff_eq_none] at h
  obtain ⟨⟨⟨ha, hb⟩, hc⟩, hd⟩ := h
  subst ha hb hc hd
  simp [ExecuteAndPipeToLogger, CreateCommandReaders]

theorem runCommands_ok {σ : Type} (env : Env σ) (task : Task) (cs : List Command)
    (h : ∀ c ∈ cs, ∀ w, (env.proc (stripped c) w).1.ok = true) (g : Globals σ) :
    ∃ w, (runCommands env task cs g).outcome = .returned ⟨g.TaskList, w⟩ ∧
      steps (runCommands env task cs g).trace =
        cs.map (fun c => Step.command (stripped c) task.Metadata) ∧
      appended (runCommands env task cs g).trace = [] := by
  induction cs generalizing g with
  | nil => exact ⟨g.world, by simp [runCommands], by simp [runCommands, steps],
      by simp [runCommands, appended]⟩
  | cons c rest ih =>
    have hc := h c (List.mem_cons_self _ _) g.world
    obtain ⟨w, hout, hst, happ⟩ := ih (fun c1 h1 => h c1 (List.mem_cons_of_mem _ h1))
      ⟨g.TaskList, (env.proc (stripped c) g.world).2⟩
    have hE := ExecuteAndPipeToLogger_ok hc (stripped c) task.Metadata
    simp only [stripped] at hE hout hst happ
    refine ⟨w, ?_, ?_, ?_⟩
    · simp only [runCommands, hE, Run.andThen_returned, hout]
    · simp only [runCommands, hE, Run.andThen_returned]
      rw [steps_append, hst]
      simp [steps, Event.step?, stripped]
    · simp only [runCommands, hE, Run.andThen_returned]
      rw [appended_append, happ]
      simp [appended, Event.added]

theorem RunAllTasks.iteration_ok {σ : Type} (env : Env σ) (t : Task) (h : succeeds env t)
    (g : Globals σ) :
    ∃ w, (RunAllTasks.iteration env t g).outcome =
        .returned ⟨g.TaskList ++ appended (RunAllTasks.iteration env t g).trace, w⟩ ∧
      steps (RunAllTasks.iteration env t g).trace = stepsOf t := by
  cases hs : t.Metadata.Skip with
  | true =>
    rw [RunAllTasks.iteration_skip env t g hs]
    exact ⟨g.world, by simp [appended, Event.added], by simp [steps, Event.step?, stepsOf, hs]⟩
  | false =>
    obtain ⟨hf, hc⟩ := h hs
    obtain ⟨w1, hout1, hst1⟩ := runTasks_ok env (funcTask t) (functionsOf t) hf g
    obtain ⟨w2, hout2, hst2, happ2⟩ := runCommands_ok env (cmdTask t) (commandsOf t) hc
      ⟨g.TaskList ++ appended (runTasks env (funcTask t) (functionsOf t) g).trace, w1⟩
    rw [RunAllTasks.iteration_run env t g hs, Run.andThen_of_returned hout1]
    refine ⟨w2, ?_, ?_⟩
    · simp only [hout2, appended_append, happ2, List.append_nil]
    · simp only [steps_append, hst1, hst2, stepsOf, hs]
      simp [funcTask, cmdTask]

theorem RunAllTasks.iteration_quiet {σ : Type} (env : Env σ) (t : Task) (h : quiet env t)
    (g : Globals σ) : ∀ e ∈ (RunAllTasks.iteration env t g).trace, e.added = [] := by
  cases hs : t.Metadata.Skip with
  | true =>
    rw [RunAllTasks.iteration_skip env t g hs]
    intro e he
    simp only [List.mem_singleton] at he
    simp [he, Event.added]
  | false =>
    rw [RunAllTasks.iteration_run env t g hs]
    apply Run.andThen_trace_forall
    · intro e he
      rcases runTasks_trace_shape env _ _ _ e he with ⟨f, w, hf, he1⟩ | ⟨err, he1⟩
      · rw [he1]
        exact h hs f hf w
      · simp [he1, Event.added]
    · intro g1 e he
      rcases runCommands_trace_shape env _ _ _ e he with
        ⟨c, w, _, h1⟩ | h1 | h1 | ⟨c, _, h1⟩ | ⟨c, _, h1⟩ | ⟨m, h1⟩ | ⟨m, h1⟩ | ⟨m, h1⟩ <;>
        simp [h1, Event.added]

theorem RunAllTasks.range_ok {σ : Type} (env : Env σ) (snapshot : List Task)
    (h : ∀ t ∈ snapshot, succeeds env t) (extra : List Task) (w : σ) :
    ∃ w1, (RunAllTasks.range env snapshot ⟨snapshot ++ extra, w⟩).outcome =
        .returned ⟨extra ++
          appended (RunAllTasks.range env snapshot ⟨snapshot ++ extra, w⟩).trace, w1⟩ ∧
      steps (RunAllTasks.range env snapshot ⟨snapshot ++ extra, w⟩).trace =
        snapshot.flatMap stepsOf := by
  induction snapshot generalizing extra w with
  | nil => exact ⟨w, by simp [RunAllTasks.range, appended], by simp [RunAllTasks.range, steps]⟩
  | cons t rest ih =>
    obtain ⟨w1, hout1, hst1⟩ := RunAllTasks.iteration_ok env t (h t (List.mem_cons_self _ _))
      ⟨t :: rest ++ extra, w⟩
    obtain ⟨w2, hout2, hst2⟩ := ih (fun t1 h1 => h t1 (List.mem_cons_of_mem _ h1))
      (extra ++ appended (RunAllTasks.iteration env t ⟨t :: rest ++ extra, w⟩).trace) w1
    simp only [RunAllTasks.range]
    rw [Run.andThen_of_returned hout1]
    simp only [List.cons_append, List.append_assoc] at hout1 hst1 hout2 hst2 ⊢
    refine ⟨w2, ?_, ?_⟩
    · simp [hout2, appended_append]
    · rw [steps_append, hst1, hst2]
      simp [List.flatMap_cons]

theorem RunAllTasks.loop_nil {σ : Type} (env : Env σ) (fuel : Nat) (w : σ) :
    RunAllTasks.loop env fuel ⟨[], w⟩ = ⟨[], .returned ⟨[], w⟩⟩ := by
  cases fuel <;> simp [RunAllTasks.loop]

theorem RunAllTasks.range_quiet {σ : Type} (env : Env σ) (snapshot : List Task)
    (h : ∀ t ∈ snapshot, quiet env t) (g : Globals σ) :
    appended (RunAllTasks.range env snapshot g).trace = [] :=
  appended_eq_nil (RunAllTasks.range_trace_forall env (fun e => e.added = []) snapshot
    (fun t ht g1 => RunAllTasks.iteration_quiet env t (h t ht) g1) g)

/-- With slices as values: on a non-empty queue whose non-skipped tasks have
only succeeding inline functions and commands and append nothing,
`RunAllTasks` returns with an empty queue (one pass is enough), and the steps
it executed are, task after task in registration order, the inline functions
of the task in order and then its commands in order, each once, and nothing
for a skipped task. -/
theorem RunAllTasks_runs_every_task_once {σ : Type} (env : Env σ)
    (options : RunAllTasksOptions) (fuel : Nat) (ts : List Task) (w : σ)
    (hne : ts ≠ []) (hok : ∀ t ∈ ts, succeeds env t) (hquiet : ∀ t ∈ ts, quiet env t) :
    ∃ w1, (RunAllTasks env options (fuel + 1) ⟨ts, w⟩).outcome = .returned ⟨[], w1⟩ ∧
      steps (RunAllTasks env options (fuel + 1) ⟨ts, w⟩).trace = ts.flatMap stepsOf := by
  obtain ⟨w1, hout, hst⟩ := RunAllTasks.range_ok env ts hok [] w
  have happ := RunAllTasks.range_quiet env ts hquiet ⟨ts, w⟩
  simp only [List.append_nil] at hout hst
  rw [happ, List.append_nil] at hout
  have hrun : RunAllTasks env options (fuel + 1) ⟨ts, w⟩ =
      Run.andThen (RunAllTasks.range env ts ⟨ts, w⟩) (RunAllTasks.loop env fuel) := by
    simp [RunAllTasks, RunAllTasks.loop, hne]
  rw [hrun, Run.andThen_of_returned hout, RunAllTasks.loop_nil]
  exact ⟨w1, rfl, by simpa using hst⟩

/-- An instance: a queue of a task with functions and commands, and a skipped
task. -/
theorem RunAllTasks_runs_every_task_once_witness :
    ∃ w1, (RunAllTasks quietEnv DefaultRunAllTasksOptions 1
          ⟨[buildTask, skippedTask], ()⟩).outcome = .returned ⟨[], w1⟩ ∧
      steps (RunAllTasks quietEnv DefaultRunAllTasksOptions 1
          ⟨[buildTask, skippedTask], ()⟩).trace = [buildTask, skippedTask].flatMap stepsOf :=
  RunAllTasks_runs_every_task_once quietEnv DefaultRunAllTasksOptions 0
    [buildTask, skippedTask] () (by simp)
    (fun _ _ _ => ⟨fun _ _ _ => rfl, fun _ _ _ => rfl⟩) (fun _ _ _ _ _ _ => rfl)

/-! ## Primary function and primary command -/

/-- With slices as values: for a non-skipped task with listed functions `fs`
(possibly nil), primary function `P`, listed commands `cs` (possibly nil) and
primary command `C`, all succeeding, the body of `RunAllTasks` executes exactly
`fs` followed by `P` when set, then `cs` followed by `C` when set, and every
inline function is invoked on the task whose `Tasks` sequence already ends with
the primary function. -/
theorem iteration_appends_primary {σ : Type} (env : Env σ) (g : Globals σ)
    (fs : Option (List TaskFunc)) (P : Option TaskFunc) (cs : Option (List Command))
    (C : Option Command) (m : TaskMetadata) (lg : Option String)
    (hskip : m.Skip = false) (hok : succeeds env ⟨C, cs, P, fs, m, lg⟩) :
    (∃ g1, (RunAllTasks.iteration env ⟨C, cs, P, fs, m, lg⟩ g).outcome = .returned g1) ∧
    steps (RunAllTasks.iteration env ⟨C, cs, P, fs, m, lg⟩ g).trace =
      (fs.getD [] ++ P.toList).map (fun f => Step.func f (normalize m)) ++
      (cs.getD [] ++ C.toList).map (fun c => Step.command (stripped c) (normalize m)) ∧
    (∀ f t1 err added,
      Event.call f t1 err added ∈ (RunAllTasks.iteration env ⟨C, cs, P, fs, m, lg⟩ g).trace →
        t1.Tasks = some (fs.getD [] ++ P.toList)) := by
  obtain ⟨w, hout, hst⟩ := RunAllTasks.iteration_ok env _ hok g
  refine ⟨⟨_, hout⟩, ?_, ?_⟩
  · rw [hst]
    simp [stepsOf, hskip, functionsOf, commandsOf]
  · intro f t1 err added hmem
    have hall : ∀ e ∈ (RunAllTasks.iteration env ⟨C, cs, P, fs, m, lg⟩ g).trace,
        ∀ f t1 err added, e = Event.call f t1 err added →
          t1.Tasks = some (fs.getD [] ++ P.toList) := by
      rw [RunAllTasks.iteration_run env _ g hskip]
      apply Run.andThen_trace_forall
      · intro e he
        rcases runTasks_trace_shape env _ _ _ e he with ⟨f, w, _, h⟩ | ⟨err, h⟩
        · subst h
          intro f1 t1 err added heq
          simp only [Event.call.injEq] at heq
          rw [← heq.2.1]
          simp [funcTask, functionsOf]
        · simp [h]
      · intro g1 e he
        rcases runCommands_trace_shape env _ _ _ e he with
          ⟨c, w, _, h⟩ | h | h | ⟨c, _, h⟩ | ⟨c, _, h⟩ | ⟨m, h⟩ | ⟨m, h⟩ | ⟨m, h⟩ <;>
          simp [h]
    exact hall _ hmem f t1 err added rfl

/-- An instance: `buildTask`. -/
theorem iteration_appends_primary_witness :
    steps (RunAllTasks.iteration quietEnv buildTask ⟨[buildTask], ()⟩).trace =
      [.func 1 ⟨"Build", false, DebugLevel, ErrorLevel⟩,
       .func 2 ⟨"Build", false, DebugLevel, ErrorLevel⟩,
       .func 3 ⟨"Build", false, DebugLevel, ErrorLevel⟩,
       .command { Path := "/usr/bin/make", Args := ["make", "all"] } ⟨"Build", false, DebugLevel, ErrorLevel⟩,
       .command { Path := "/bin/echo", Args := ["echo", "done"] } ⟨"Build", false, DebugLevel, ErrorLevel⟩] :=
  (iteration_appends_primary quietEnv ⟨[buildTask], ()⟩ (some [1, 2]) (some 3)
    (some [{ Path := "/usr/bin/make", Args := ["make", "", "all"] }]) (some { Path := "/bin/echo", Args := ["echo", "", "done"] })
    ⟨"Build", false, DebugLevel, ErrorLevel⟩ none rfl
    (fun _ => ⟨fun _ _ _ => rfl, fun _ _ _ => rfl⟩)).2.1

/-! ## Tasks appended while the queue is drained -/

/-- Claim C10.  On a non-empty queue `ts` whose steps all succeed, let `us` be
the tasks the inline functions append during the pass over `ts`, and suppose
the steps of `us` succeed and append nothing.  Then the pass over `ts`
returns with the queue equal to `us` (the tasks present at its start are
removed, the appended ones are all left) and executes the steps of `ts` only;
and `RunAllTasks` returns with an empty queue after executing the steps of
`ts` followed by the steps of `us` in append order, each once. -/
theorem RunAllTasks_appended_run_in_next_pass {σ : Type} (env : Env σ)
    (options : RunAllTasksOptions) (fuel : Nat) (ts us : List Task) (w : σ)
    (hne : ts ≠ []) (hok : ∀ t ∈ ts, succeeds env t)
    (hus : appended (RunAllTasks.range env ts ⟨ts, w⟩).trace = us)
    (hok2 : ∀ u ∈ us, succeeds env u) (hquiet2 : ∀ u ∈ us, quiet env u) :
    (∃ w1, (RunAllTasks.range env ts ⟨ts, w⟩).outcome = .returned ⟨us, w1⟩ ∧
      steps (RunAllTasks.range env ts ⟨ts, w⟩).trace = ts.flatMap stepsOf) ∧
    (∃ w2, (RunAllTasks env options (fuel + 2) ⟨ts, w⟩).outcome = .returned ⟨[], w2⟩ ∧
      steps (RunAllTasks env options (fuel + 2) ⟨ts, w⟩).trace =
        ts.flatMap stepsOf ++ us.flatMap stepsOf) := by
  obtain ⟨w1, hout, hst⟩ := RunAllTasks.range_ok env ts hok [] w
  simp only [List.append_nil, List.nil_append] at hout hst
  rw [hus] at hout
  refine ⟨⟨w1, hout, hst⟩, ?_⟩
  have hrun : RunAllTasks env options (fuel + 2) ⟨ts, w⟩ =
      Run.andThen (RunAllTasks.range env ts ⟨ts, w⟩) (RunAllTasks.loop env (fuel + 1)) := by
    simp [RunAllTasks, RunAllTasks.loop, hne]
  rw [hrun, Run.andThen_of_returned hout]
  by_cases hnil : us = []
  · subst hnil
    rw [RunAllTasks.loop_nil]
    exact ⟨w1, rfl, by simpa using hst⟩
  · obtain ⟨w2, hout2, hst2⟩ := RunAllTasks.range_ok env us hok2 [] w1
    have happ := RunAllTasks.range_quiet env us hquiet2 ⟨us, w1⟩
    simp only [List.append_nil, List.nil_append] at hout2 hst2
    rw [happ] at hout2
    have hloop : RunAllTasks.loop env (fuel + 1) ⟨us, w1⟩ =
        Run.andThen (RunAllTasks.range env us ⟨us, w1⟩) (RunAllTasks.loop env fuel) := by
      simp [RunAllTasks.loop, hnil]
    rw [hloop, Run.andThen_of_returned hout2, RunAllTasks.loop_nil]
    exact ⟨w2, rfl, by simp [steps_append, hst, hst2]⟩

/-- Witness of `RunAllTasks_appended_run_in_next_pass`: inline function 0 of
the first task appends `followUpTask`. -/
theorem RunAllTasks_appended_run_in_next_pass_witness :
    appended (RunAllTasks.range appendingEnv [panicLevelTask, buildTask]
        ⟨[panicLevelTask, buildTask], ()⟩).trace = [followUpTask] ∧
    ∃ w2, (RunAllTasks appendingEnv DefaultRunAllTasksOptions 2
          ⟨[panicLevelTask, buildTask], ()⟩).outcome = .returned ⟨[], w2⟩ ∧
      steps (RunAllTasks appendingEnv DefaultRunAllTasksOptions 2
          ⟨[panicLevelTask, buildTask], ()⟩).trace =
        [panicLevelTask, buildTask].flatMap stepsOf ++ [followUpTask].flatMap stepsOf :=
  ⟨by decide,
   (RunAllTasks_appended_run_in_next_pass appendingEnv DefaultRunAllTasksOptions 0
      [panicLevelTask, buildTask] [followUpTask] () (by simp)
      (fun _ _ _ => ⟨fun _ _ _ => rfl, fun _ _ _ => rfl⟩) (by decide)
      (fun _ _ _ => ⟨fun _ _ _ => rfl, fun _ _ _ => rfl⟩)
      (fun u hu _ f hf _ => by
        simp only [List.mem_singleton] at hu
        subst hu
        have h1 : f = 1 := by simpa [functionsOf, followUpTask] using hf
        subst h1
        rfl)).2⟩

/-! ## Empty queue -/

/-- Claim C3.  `RunAllTasks` ends in the fatal outcome with the record
"Task list is empty!" exactly when the queue is empty at invocation; in that
case that record is the only event (no inline function, no command) and the
queue is as it was. -/
theorem RunAllTasks_empty_queue_fatal {σ : Type} (env : Env σ) (options : RunAllTasksOptions)
    (fuel : Nat) (g : Globals σ) :
    ((∃ g1, (RunAllTasks env options fuel g).outcome = .fatal g1 ∧
        (RunAllTasks env options fuel g).trace.getLast? =
          some (.log (some "COMMAND") FatalLevel "Task list is empty!")) ↔
      g.TaskList = []) ∧
    (g.TaskList = [] →
      RunAllTasks env options fuel g =
        ⟨[.log (some "COMMAND") FatalLevel "Task list is empty!"], .fatal g⟩) := by
  have hempty : g.TaskList = [] →
      RunAllTasks env options fuel g =
        ⟨[.log (some "COMMAND") FatalLevel "Task list is empty!"], .fatal g⟩ := by
    intro h
    simp [RunAllTasks, h]
  refine ⟨⟨?_, ?_⟩, hempty⟩
  · rintro ⟨g1, _, hlast⟩
    by_contra hne
    have hloop : RunAllTasks env options fuel g = RunAllTasks.loop env fuel g := by
      simp [RunAllTasks, hne]
    rw [hloop] at hlast
    have hmem := List.mem_of_getLast?_eq_some hlast
    exact RunAllTasks.loop_trace_forall env (fun e => e ≠ emptyRecord)
      (RunAllTasks.iteration_trace_ne_emptyRecord env) fuel g _ hmem rfl
  · intro h
    rw [hempty h]
    exact ⟨g, rfl, rfl⟩

/-! ## Severities -/

/-- Claim C4, as the code has it.  In the body `RunAllTasks` runs on each task,
the stdout / stderr severities of the task handed to the inline functions and
the levels handed to the two forwarding loops are the declared ones, except
that a declared level equal to the zero value `PanicLevel` (which is how an
unset level reads) is replaced by `InfoLevel` for stdout and `WarnLevel` for
stderr. -/
theorem iteration_severities {σ : Type} (env : Env σ) (t : Task) (g : Globals σ) :
    ∀ e ∈ (RunAllTasks.iteration env t g).trace,
      (∀ f t1 err added, e = .call f t1 err added →
        t1.Metadata.StdOutLogLevel =
          (if t.Metadata.StdOutLogLevel = PanicLevel then InfoLevel
            else t.Metadata.StdOutLogLevel) ∧
        t1.Metadata.StdErrLogLevel =
          (if t.Metadata.StdErrLogLevel = PanicLevel then WarnLevel
            else t.Metadata.StdErrLogLevel)) ∧
      (∀ m l, e = .capture .stdout m l →
        l = (if t.Metadata.StdOutLogLevel = PanicLevel then InfoLevel
              else t.Metadata.StdOutLogLevel)) ∧
      (∀ m l, e = .capture .stderr m l →
        l = (if t.Metadata.StdErrLogLevel = PanicLevel then WarnLevel
              else t.Metadata.StdErrLogLevel)) := by
  cases hs : t.Metadata.Skip with
  | true =>
    rw [RunAllTasks.iteration_skip env t g hs]
    intro e he
    simp only [List.mem_singleton] at he
    simp [he]
  | false =>
    rw [RunAllTasks.iteration_run env t g hs]
    apply Run.andThen_trace_forall
    · intro e he
      rcases runTasks_trace_shape env _ _ _ e he with ⟨f, w, _, h⟩ | ⟨err, h⟩
      · subst h
        refine ⟨?_, by simp, by simp⟩
        intro f1 t1 err added heq
        simp only [Event.call.injEq] at heq
        rw [← heq.2.1]
        simp [funcTask, normalize]
      · simp [h]
    · intro g1 e he
      rcases runCommands_trace_shape env _ _ _ e he with
        ⟨c, w, _, h⟩ | h | h | ⟨c, _, h⟩ | ⟨c, _, h⟩ | ⟨m, h⟩ | ⟨m, h⟩ | ⟨m, h⟩ <;>
        subst h <;> simp [cmdTask, funcTask, normalize]

/-- Witness of `iteration_severities`: the stdout loop of `panicLevelTask`. -/
theorem iteration_severities_witness :
    Event.capture .stdout ⟨"List", false, InfoLevel, WarnLevel⟩ InfoLevel ∈
        (RunAllTasks.iteration quietEnv panicLevelTask ⟨[panicLevelTask], ()⟩).trace ∧
      InfoLevel = (if panicLevelTask.Metadata.StdOutLogLevel = PanicLevel then InfoLevel
        else panicLevelTask.Metadata.StdOutLogLevel) :=
  ⟨by decide,
   ((iteration_severities quietEnv panicLevelTask ⟨[panicLevelTask], ()⟩
      (.capture .stdout ⟨"List", false, InfoLevel, WarnLevel⟩ InfoLevel) (by decide)).2.1
      _ _ rfl)⟩

/-- Claim C4 fails as stated: a task that explicitly declares `PanicLevel` for
both streams has its inline function and its forwarding loops handed
`InfoLevel` and `WarnLevel`. -/
theorem explicit_panic_level_replaced :
    panicLevelTask.Metadata.StdOutLogLevel = PanicLevel ∧
    panicLevelTask.Metadata.StdErrLogLevel = PanicLevel ∧
    (RunAllTasks quietEnv DefaultRunAllTasksOptions 1 ⟨[panicLevelTask], ()⟩).trace =
      [.call 0
          { Command := some { Path := "/bin/ls", Args := ["ls"] }, Commands := none, Task := some 0,
            Tasks := some [0], Metadata := ⟨"List", false, InfoLevel, WarnLevel⟩,
            Log := some "List" } none [],
        .log (some "RUN") InfoLevel "$ ls",
        .exec { Path := "/bin/ls", Args := ["ls"] } ⟨"List", false, InfoLevel, WarnLevel⟩
          ⟨none, none, none, none, none⟩,
        .capture .stdout ⟨"List", false, InfoLevel, WarnLevel⟩ InfoLevel,
        .capture .stderr ⟨"List", false, InfoLevel, WarnLevel⟩ WarnLevel,
        .log (some "FINISH") InfoLevel "ls"] ∧
    InfoLevel ≠ PanicLevel ∧ WarnLevel ≠ PanicLevel := by
  refine ⟨rfl, rfl, ?_, by decide, by decide⟩
  decide

/-! ## Fail fast -/

theorem Event.step_of_failed {e : Event} (h : e.failed = true) : e.step? ≠ none := by
  cases e <;> simp [Event.failed, Event.step?] at h ⊢

theorem failStop_append {a b : List Event} (ha : failStop a) (hclean : ∀ e ∈ a, e.failed = false)
    (hb : failStop b) : failStop (a ++ b) := by
  induction a with
  | nil => simpa using hb
  | cons x rest ih =>
    simp only [List.cons_append, failStop]
    refine ⟨?_, ih ha.2 (fun e he => hclean e (List.mem_cons_of_mem _ he))⟩
    intro hx
    rw [hclean x (List.mem_cons_self _ _)] at hx
    exact absurd hx (by simp)

theorem finishFollows_append {a b : List Event} (ha : finishFollows a) (hb : finishFollows b) :
    finishFollows (a ++ b) := by
  induction a with
  | nil => simpa using hb
  | cons x rest ih =>
    simp only [List.cons_append, finishFollows]
    refine ⟨?_, ih ha.2⟩
    intro cmd m r hx hr
    obtain ⟨line, post, h⟩ := ha.1 cmd m r hx hr
    exact ⟨line, post ++ b, by simp [h]⟩

theorem failStop_split {pre post : List Event} {x : Event}
    (h : failStop (pre ++ x :: post)) (hx : x.failed = true) :
    (∀ e ∈ pre, e.failed = false) ∧ (∀ e ∈ post, e.step? = none) := by
  induction pre with
  | nil => exact ⟨by simp, h.1 hx⟩
  | cons y rest ih =>
    simp only [List.cons_append, failStop] at h
    obtain ⟨h1, h2⟩ := ih h.2
    refine ⟨?_, h2⟩
    intro e he
    rcases List.mem_cons.1 he with rfl | he
    · by_contra hf
      have hf1 : e.failed = true := by simpa using hf
      exact Event.step_of_failed hx (h.1 hf1 x (by simp))
    · exact h1 e he

theorem finishFollows_split {pre post : List Event} {cmd : Cmd} {m : TaskMetadata}
    {r : ProcResult} (h : finishFollows (pre ++ .exec cmd m r :: post)) (hr : r.ok = true) :
    ∃ line post1, post = .capture .stdout m m.StdOutLogLevel ::
      .capture .stderr m m.StdErrLogLevel :: .log (some "FINISH") InfoLevel line :: post1 := by
  induction pre with
  | nil => exact h.1 cmd m r rfl hr
  | cons y rest ih =>
    simp only [List.cons_append, finishFollows] at h
    exact ih h.2

theorem Run.sound_andThen {σ : Type} {r : Run σ} {k : Globals σ → Run σ} (hr : r.sound)
    (hk : ∀ g, (k g).sound) : (r.andThen k).sound := by
  unfold Run.andThen
  split
  · next g hg =>
    obtain ⟨h1, h2, h3, _⟩ := hr
    obtain ⟨k1, k2, k3, k4⟩ := hk g
    have hclean : ∀ e ∈ r.trace, e.failed = false := by
      intro e he
      by_contra hf
      have hf1 : e.failed = true := by simpa using hf
      obtain ⟨g1, hg1⟩ := h3.1 ⟨e, he, hf1⟩
      rw [hg] at hg1
      cases hg1
    refine ⟨failStop_append h1 hclean k1, finishFollows_append h2 k2, ⟨?_, ?_⟩, ?_⟩
    · rintro ⟨e, he, hf⟩
      rcases List.mem_append.1 he with h | h
      · rw [hclean e h] at hf
        cases hf
      · exact k3.1 ⟨e, h, hf⟩
    · intro hfat
      obtain ⟨e, he, hf⟩ := k3.2 hfat
      exact ⟨e, List.mem_append_right _ he, hf⟩
    · intro g1 hg1
      obtain ⟨c, m, hl⟩ := k4 g1 hg1
      refine ⟨c, m, ?_⟩
      simp only [List.getLast?_append, hl, Option.or_some]
  · exact hr

theorem runTasks_sound {σ : Type} (env : Env σ) (task : Task) (fs : List TaskFunc)
    (g : Globals σ) : (runTasks env task fs g).sound := by
  induction fs generalizing g with
  | nil => simp [runTasks, Run.sound, failStop, finishFollows]
  | cons f rest ih =>
    simp only [runTasks]
    split
    · simp [Run.sound, failStop, finishFollows, Event.failed, Event.step?]
    · apply Run.sound_andThen _ (fun g1 => ih g1)
      simp [Run.sound, failStop, finishFollows, Event.failed]

theorem runCommands_sound {σ : Type} (env : Env σ) (task : Task) (cs : List Command)
    (g : Globals σ) : (runCommands env task cs g).sound := by
  induction cs generalizing g with
  | nil => simp [runCommands, Run.sound, failStop, finishFollows]
  | cons c rest ih =>
    simp only [runCommands]
    generalize env.proc
      { Path := c.Path, Args := DeleteEmptyStringsFromSlice c.Args, Err := c.Err } g.world = p
    rcases p with ⟨⟨a, b, st, wt, x⟩, w⟩
    cases a with
    | some e =>
      simp [ExecuteAndPipeToLogger, CreateCommandReaders, Run.sound, failStop, finishFollows,
        Event.failed, Event.step?, ProcResult.ok]
    | none =>
      cases b with
      | some e =>
        simp [ExecuteAndPipeToLogger, CreateCommandReaders, Run.sound, failStop,
          finishFollows, Event.failed, Event.step?, ProcResult.ok]
      | none =>
        cases st with
        | some e =>
          simp [ExecuteAndPipeToLogger, CreateCommandReaders, Run.sound, failStop,
            finishFollows, Event.failed, Event.step?, ProcResult.ok]
        | none =>
          cases wt with
          | some e =>
            cases x <;>
              simp [ExecuteAndPipeToLogger, CreateCommandReaders, Run.sound, failStop,
                finishFollows, Event.failed, Event.step?, ProcResult.ok]
          | none =>
            simp only [ExecuteAndPipeToLogger, CreateCommandReaders]
            apply Run.sound_andThen _ (fun g1 => ih g1)
            simp [Run.sound, failStop, finishFollows, Event.failed, Event.step?,
              ProcResult.ok]

theorem RunAllTasks.iteration_sound {σ : Type} (env : Env σ) (t : Task) (g : Globals σ) :
    (RunAllTasks.iteration env t g).sound := by
  cases hs : t.Metadata.Skip with
  | true =>
    rw [RunAllTasks.iteration_skip env t g hs]
    simp [Run.sound, failStop, finishFollows, Event.failed]
  | false =>
    rw [RunAllTasks.iteration_run env t g hs]
    exact Run.sound_andThen (runTasks_sound env _ _ g) (fun g1 => runCommands_sound env _ _ g1)

theorem RunAllTasks.range_sound {σ : Type} (env : Env σ) (snapshot : List Task)
    (g : Globals σ) : (RunAllTasks.range env snapshot g).sound := by
  induction snapshot generalizing g with
  | nil => simp [RunAllTasks.range, Run.sound, failStop, finishFollows]
  | cons t rest ih =>
    simp only [RunAllTasks.range]
    apply Run.sound_andThen (RunAllTasks.iteration_sound env t g)
    intro g1
    split
    · simp [Run.sound, failStop, finishFollows]
    · exact ih _

theorem RunAllTasks.loop_sound {σ : Type} (env : Env σ) (fuel : Nat) (g : Globals σ) :
    (RunAllTasks.loop env fuel g).sound := by
  induction fuel generalizing g with
  | zero =>
    simp only [RunAllTasks.loop]
    split <;> simp [Run.sound, failStop, finishFollows]
  | succ n ih =>
    simp only [RunAllTasks.loop]
    split
    · exact Run.sound_andThen (RunAllTasks.range_sound env _ g) (fun g1 => ih g1)
    · simp [Run.sound, failStop, finishFollows]

/-! ## The queue never underflows -/

theorem Run.steady_andThen {σ : Type} {base : List Task} {r : Run σ} {k : Globals σ → Run σ}
    (hr : r.steady base) (hk : ∀ g, r.outcome = .returned g → (k g).steady g.TaskList) :
    (r.andThen k).steady base := by
  unfold Run.andThen
  split
  · next g hg =>
    obtain ⟨k1, k2⟩ := hk g hg
    refine ⟨?_, k2⟩
    intro g1 hg1
    rw [k1 g1 hg1, hr.1 g hg, appended_append, List.append_assoc]
  · exact hr

theorem runTasks_steady {σ : Type} (env : Env σ) (task : Task) (fs : List TaskFunc)
    (g : Globals σ) : (runTasks env task fs g).steady g.TaskList := by
  induction fs generalizing g with
  | nil => simp [runTasks, Run.steady, appended]
  | cons f rest ih =>
    simp only [runTasks]
    split
    · simp [Run.steady]
    · apply Run.steady_andThen
      · simp [Run.steady, appended, Event.added, AddTasks]
      · intro g1 hg1
        simp only [Outcome.returned.injEq] at hg1
        rw [← hg1]
        exact ih _

theorem ExecuteAndPipeToLogger_appended (r : ProcResult) (cmd : Cmd) (context : TaskMetadata) :
    appended (ExecuteAndPipeToLogger r cmd context).1 = [] := by
  apply appended_eq_nil
  intro e he
  rcases ExecuteAndPipeToLogger_trace_shape r cmd context e he with
    h | h | h | ⟨m, h⟩ | ⟨m, h⟩ | ⟨m, h⟩ <;> simp [h, Event.added]

theorem runCommands_steady {σ : Type} (env : Env σ) (task : Task) (cs : List Command)
    (g : Globals σ) : (runCommands env task cs g).steady g.TaskList := by
  induction cs generalizing g with
  | nil => simp [runCommands, Run.steady, appended]
  | cons c rest ih =>
    simp only [runCommands]
    split
    · simp [Run.steady]
    · simp [Run.steady]
    · apply Run.steady_andThen
      · refine ⟨?_, by simp⟩
        intro g1 hg1
        simp only [Outcome.returned.injEq] at hg1
        rw [← hg1]
        simp [appended_cons, appended_append, ExecuteAndPipeToLogger_appended, Event.added,
          appended_nil]
      · intro g1 hg1
        simp only [Outcome.returned.injEq] at hg1
        rw [← hg1]
        exact ih _

theorem RunAllTasks.iteration_steady {σ : Type} (env : Env σ) (t : Task) (g : Globals σ) :
    (RunAllTasks.iteration env t g).steady g.TaskList := by
  cases hs : t.Metadata.Skip with
  | true =>
    rw [RunAllTasks.iteration_skip env t g hs]
    simp [Run.steady, appended, Event.added]
  | false =>
    rw [RunAllTasks.iteration_run env t g hs]
    exact Run.steady_andThen (runTasks_steady env _ _ g)
      (fun g1 _ => runCommands_steady env _ _ g1)

theorem RunAllTasks.range_steady {σ : Type} (env : Env σ) (snapshot extra : List Task)
    (g : Globals σ) (hg : g.TaskList = snapshot ++ extra) :
    (∀ g1, (RunAllTasks.range env snapshot g).outcome = .returned g1 →
      g1.TaskList = extra ++ appended (RunAllTasks.range env snapshot g).trace) ∧
    (∀ g1, (RunAllTasks.range env snapshot g).outcome ≠ .panicked g1) := by
  induction snapshot generalizing extra g with
  | nil =>
    simp only [List.nil_append] at hg
    simp [RunAllTasks.range, appended, hg]
  | cons t rest ih =>
    have hit := RunAllTasks.iteration_steady env t g
    simp only [RunAllTasks.range]
    unfold Run.andThen
    split
    · next g1 hg1 =>
      have hq := hit.1 g1 hg1
      rw [hg] at hq
      simp only [List.cons_append, List.append_assoc] at hq
      simp only [hq]
      obtain ⟨i1, i2⟩ := ih (extra ++ appended (RunAllTasks.iteration env t g).trace)
        ⟨rest ++ (extra ++ appended (RunAllTasks.iteration env t g).trace), g1.world⟩ rfl
      refine ⟨?_, i2⟩
      intro g2 hg2
      rw [i1 g2 hg2, appended_append, List.append_assoc]
    · next hnr =>
      refine ⟨fun g1 hg1 => absurd hg1 (hnr g1), hit.2⟩

theorem Run.andThen_not_running {σ : Type} {r : Run σ} {k : Globals σ → Run σ}
    (hr : ∀ g, r.outcome ≠ .running g) (hk : ∀ g g1, (k g).outcome ≠ .running g1) :
    ∀ g, (r.andThen k).outcome ≠ .running g := by
  unfold Run.andThen
  split
  · exact fun g1 => hk _ g1
  · exact hr

theorem runTasks_not_running {σ : Type} (env : Env σ) (task : Task) (fs : List TaskFunc)
    (g : Globals σ) : ∀ g1, (runTasks env task fs g).outcome ≠ .running g1 := by
  induction fs generalizing g with
  | nil => simp [runTasks]
  | cons f rest ih =>
    simp only [runTasks]
    split
    · simp
    · exact Run.andThen_not_running (by simp) (fun g0 g1 => ih g0 g1)

theorem runCommands_not_running {σ : Type} (env : Env σ) (task : Task) (cs : List Command)
    (g : Globals σ) : ∀ g1, (runCommands env task cs g).outcome ≠ .running g1 := by
  induction cs generalizing g with
  | nil => simp [runCommands]
  | cons c rest ih =>
    simp only [runCommands]
    split
    · simp
    · simp
    · exact Run.andThen_not_running (by simp) (fun g0 g1 => ih g0 g1)

theorem RunAllTasks.iteration_not_running {σ : Type} (env : Env σ) (t : Task)
    (g : Globals σ) : ∀ g1, (RunAllTasks.iteration env t g).outcome ≠ .running g1 := by
  cases hs : t.Metadata.Skip with
  | true =>
    rw [RunAllTasks.iteration_skip env t g hs]
    simp
  | false =>
    rw [RunAllTasks.iteration_run env t g hs]
    exact Run.andThen_not_running (runTasks_not_running env _ _ g)
      (fun g0 g1 => runCommands_not_running env _ _ g0 g1)

theorem RunAllTasks.range_not_running {σ : Type} (env : Env σ) (snapshot : List Task)
    (g : Globals σ) : ∀ g1, (RunAllTasks.range env snapshot g).outcome ≠ .running g1 := by
  induction snapshot generalizing g with
  | nil => simp [RunAllTasks.range]
  | cons t rest ih =>
    simp only [RunAllTasks.range]
    apply Run.andThen_not_running (RunAllTasks.iteration_not_running env t g)
    intro g0 g1
    split
    · simp
    · exact ih _ g1

theorem RunAllTasks.loop_not_panicked {σ : Type} (env : Env σ) (fuel : Nat) (g : Globals σ) :
    ∀ g1, (RunAllTasks.loop env fuel g).outcome ≠ .panicked g1 := by
  induction fuel generalizing g with
  | zero =>
    simp only [RunAllTasks.loop]
    split <;> simp
  | succ n ih =>
    simp only [RunAllTasks.loop]
    split
    · unfold Run.andThen
      split
      · exact ih _
      · exact (RunAllTasks.range_steady env g.TaskList [] g (by simp)).2
    · simp

theorem RunAllTasks.range_runs {σ : Type} (env : Env σ) (snapshot extra : List Task)
    (g : Globals σ) (hg : g.TaskList = snapshot ++ extra) :
    ∃ done gs, gs.length = done.length ∧
      (RunAllTasks.range env snapshot g).trace =
        (List.zip done gs).flatMap (fun p => (RunAllTasks.iteration env p.1 p.2).trace) ∧
      done <+: snapshot ∧
      (∀ g1, (RunAllTasks.range env snapshot g).outcome = .returned g1 → done = snapshot) := by
  induction snapshot generalizing extra g with
  | nil => exact ⟨[], [], rfl, by simp [RunAllTasks.range], List.prefix_refl _, fun _ _ => rfl⟩
  | cons t rest ih =>
    have hit := RunAllTasks.iteration_steady env t g
    simp only [RunAllTasks.range]
    unfold Run.andThen
    split
    · next g1 hg1 =>
      have hq := hit.1 g1 hg1
      rw [hg] at hq
      simp only [List.cons_append, List.append_assoc] at hq
      simp only [hq]
      obtain ⟨done, gs, hlen, htr, hpre, hall⟩ :=
        ih (extra ++ appended (RunAllTasks.iteration env t g).trace)
          ⟨rest ++ (extra ++ appended (RunAllTasks.iteration env t g).trace), g1.world⟩ rfl
      refine ⟨t :: done, g :: gs, by simp [hlen], ?_, (List.prefix_cons_inj t).2 hpre, ?_⟩
      · simp only [htr, List.zip_cons_cons, List.flatMap_cons]
      · intro g2 hg2
        rw [hall g2 hg2]
    · next hnr =>
      refine ⟨[t], [g], rfl, by simp, ?_, fun g1 hg1 => absurd hg1 (hnr g1)⟩
      exact (List.prefix_cons_inj t).2 List.nil_prefix

theorem RunAllTasks.loop_runs {σ : Type} (env : Env σ) (fuel : Nat) (g : Globals σ) :
    ∃ processed gs, gs.length = processed.length ∧
      (RunAllTasks.loop env fuel g).trace =
        (List.zip processed gs).flatMap
          (fun p => (RunAllTasks.iteration env p.1 p.2).trace) ∧
      processed <+: g.TaskList ++ appended (RunAllTasks.loop env fuel g).trace ∧
      (∀ g1, (RunAllTasks.loop env fuel g).outcome = .returned g1 →
        g1.TaskList = [] ∧
        processed = g.TaskList ++ appended (RunAllTasks.loop env fuel g).trace) ∧
      (∀ g1, (RunAllTasks.loop env fuel g).outcome = .running g1 →
        processed ++ g1.TaskList =
          g.TaskList ++ appended (RunAllTasks.loop env fuel g).trace ∧
        fuel ≤ processed.length) := by
  induction fuel generalizing g with
  | zero =>
    have htr : (RunAllTasks.loop env 0 g).trace = [] := by
      simp only [RunAllTasks.loop]
      split <;> rfl
    refine ⟨[], [], rfl, by simp [htr], List.nil_prefix, ?_, ?_⟩
    · intro g1 hg1
      rw [htr]
      simp only [RunAllTasks.loop] at hg1
      split at hg1
      · simp at hg1
      · next h =>
        simp only [Outcome.returned.injEq] at hg1
        subst hg1
        have h0 : g.TaskList = [] := by simpa using h
        simp [h0, appended]
    · intro g1 hg1
      rw [htr]
      simp only [RunAllTasks.loop] at hg1
      split at hg1
      · simp only [Outcome.running.injEq] at hg1
        subst hg1
        simp [appended]
      · simp at hg1
  | succ n ih =>
    by_cases hq : g.TaskList = []
    · have hloop : RunAllTasks.loop env (n + 1) g = ⟨[], .returned g⟩ := by
        simp [RunAllTasks.loop, hq]
      rw [hloop]
      exact ⟨[], [], rfl, by simp, List.nil_prefix, by simp [hq, appended], by simp⟩
    · have hloop : RunAllTasks.loop env (n + 1) g =
          Run.andThen (RunAllTasks.range env g.TaskList g) (RunAllTasks.loop env n) := by
        simp [RunAllTasks.loop, hq]
      obtain ⟨done, gs, hlen, htr, hpre, hall⟩ :=
        RunAllTasks.range_runs env g.TaskList [] g (by simp)
      have hst := RunAllTasks.range_steady env g.TaskList [] g (by simp)
      rw [hloop]
      unfold Run.andThen
      split
      · next g1 hg1 =>
        have hdone := hall g1 hg1
        have hq1 := hst.1 g1 hg1
        simp only [List.nil_append] at hq1
        obtain ⟨processed, gs2, hlen2, htr2, hpre2, hret2, hrun2⟩ := ih g1
        rw [hq1] at hpre2 hret2 hrun2
        refine ⟨done ++ processed, gs ++ gs2, by simp [hlen, hlen2], ?_, ?_, ?_, ?_⟩
        · simp only [List.zip_append hlen.symm, List.flatMap_append, htr, htr2]
        · simp only [appended_append, hdone, ← List.append_assoc] at hpre2 ⊢
          simp only [List.append_assoc] at hpre2 ⊢
          exact (List.prefix_append_right_inj _).2 hpre2
        · intro g2 hg2
          obtain ⟨h1, h2⟩ := hret2 g2 hg2
          refine ⟨h1, ?_⟩
          simp only [appended_append, hdone, h2, List.append_assoc]
        · intro g2 hg2
          obtain ⟨h1, h2⟩ := hrun2 g2 hg2
          refine ⟨?_, ?_⟩
          · simp only [appended_append, hdone, List.append_assoc, h1]
          · have hpos : 0 < g.TaskList.length := List.length_pos.2 hq
            simp only [List.length_append, hdone]
            omega
      · next hnr =>
        refine ⟨done, gs, hlen, htr, hpre.trans (List.prefix_append _ _), ?_, ?_⟩
        · intro g1 hg1
          exact absurd hg1 (hnr g1)
        · intro g1 hg1
          exfalso
          have hsound := RunAllTasks.range_sound env g.TaskList g
          cases hout : (RunAllTasks.range env g.TaskList g).outcome with
          | returned g2 => exact hnr g2 hout
          | fatal g2 => rw [hout] at hg1; cases hg1
          | panicked g2 => rw [hout] at hg1; cases hg1
          | running g2 => exact RunAllTasks.range_not_running env g.TaskList g g2 hout

/-- Claim C2.  In every run of `RunAllTasks`:
* a step that fails (an inline function that returns an error, a command for
  which a pipe, the start or the wait fails) ends the run fatally: no step
  failed before it, no step is executed after it, and the trace ends with a
  record of level fatal;
* a command that exits with status 0 is followed by the launch of its
  forwarding loops and a record under the context "FINISH";
* on a non-empty queue the run goes on as long as no step fails: it does not
  end fatally and does not panic;
* on a non-empty queue the trace is the concatenation of the traces of the
  loop body on the tasks `processed`, a leading part of the queue followed by
  the appended tasks, in that order; a run that returns has processed all of
  them and left the queue empty; a run that reaches the bound on the passes
  has processed at least as many tasks as passes and still holds the others
  in the queue.  So a run without a failed step goes on from task to task until
  the queue is empty;
* after an inline function that returns nil `runTasks` goes on with the
  functions that remain;
* after a command that exits with status 0 and its record under "FINISH",
  `runCommands` goes on with the commands that remain. -/
theorem RunAllTasks_fails_fast {σ : Type} (env : Env σ) (options : RunAllTasksOptions)
    (fuel : Nat) (g : Globals σ) :
    (∀ pre x post, (RunAllTasks env options fuel g).trace = pre ++ x :: post →
      x.failed = true →
        (∃ g1, (RunAllTasks env options fuel g).outcome = .fatal g1) ∧
        (∀ e ∈ pre, e.failed = false) ∧ (∀ e ∈ post, e.step? = none) ∧
        (∃ c m, (x :: post).getLast? = some (.log c FatalLevel m))) ∧
    (∀ pre cmd m r post,
      (RunAllTasks env options fuel g).trace = pre ++ .exec cmd m r :: post → r.ok = true →
        ∃ line post1, post = .capture .stdout m m.StdOutLogLevel ::
          .capture .stderr m m.StdErrLogLevel :: .log (some "FINISH") InfoLevel line :: post1) ∧
    (g.TaskList ≠ [] → (∀ e ∈ (RunAllTasks env options fuel g).trace, e.failed = false) →
      ∀ g1, (RunAllTasks env options fuel g).outcome ≠ .fatal g1 ∧
        (RunAllTasks env options fuel g).outcome ≠ .panicked g1) ∧
    (g.TaskList ≠ [] →
      ∃ processed gs, gs.length = processed.length ∧
        (RunAllTasks env options fuel g).trace =
          (List.zip processed gs).flatMap
            (fun p => (RunAllTasks.iteration env p.1 p.2).trace) ∧
        processed <+: g.TaskList ++ appended (RunAllTasks env options fuel g).trace ∧
        (∀ g1, (RunAllTasks env options fuel g).outcome = .returned g1 →
          g1.TaskList = [] ∧
          processed = g.TaskList ++ appended (RunAllTasks env options fuel g).trace) ∧
        (∀ g1, (RunAllTasks env options fuel g).outcome = .running g1 →
          processed ++ g1.TaskList =
            g.TaskList ++ appended (RunAllTasks env options fuel g).trace ∧
          fuel ≤ processed.length)) ∧
    (∀ task f rest g1, (env.call f task g1.world).err = none →
      runTasks env task (f :: rest) g1 =
        ⟨.call f task none (env.call f task g1.world).added ::
          (runTasks env task rest ⟨AddTasks g1.TaskList (env.call f task g1.world).added,
            (env.call f task g1.world).world⟩).trace,
         (runTasks env task rest ⟨AddTasks g1.TaskList (env.call f task g1.world).added,
            (env.call f task g1.world).world⟩).outcome⟩) ∧
    (∀ task c rest g1, (env.proc (stripped c) g1.world).1.ok = true →
      runCommands env task (c :: rest) g1 =
        ⟨.log (some "RUN") InfoLevel ("$ " ++ Join c.Args " ") ::
          .exec (stripped c) task.Metadata (env.proc (stripped c) g1.world).1 ::
          .capture .stdout task.Metadata task.Metadata.StdOutLogLevel ::
          .capture .stderr task.Metadata task.Metadata.StdErrLogLevel ::
          .log (some "FINISH") InfoLevel (Join c.Args " ") ::
          (runCommands env task rest ⟨g1.TaskList, (env.proc (stripped c) g1.world).2⟩).trace,
         (runCommands env task rest
            ⟨g1.TaskList, (env.proc (stripped c) g1.world).2⟩).outcome⟩) := by
  have hnext : ∀ task c rest (g1 : Globals σ), (env.proc (stripped c) g1.world).1.ok = true →
      runCommands env task (c :: rest) g1 =
        ⟨.log (some "RUN") InfoLevel ("$ " ++ Join c.Args " ") ::
          .exec (stripped c) task.Metadata (env.proc (stripped c) g1.world).1 ::
          .capture .stdout task.Metadata task.Metadata.StdOutLogLevel ::
          .capture .stderr task.Metadata task.Metadata.StdErrLogLevel ::
          .log (some "FINISH") InfoLevel (Join c.Args " ") ::
          (runCommands env task rest ⟨g1.TaskList, (env.proc (stripped c) g1.world).2⟩).trace,
         (runCommands env task rest
            ⟨g1.TaskList, (env.proc (stripped c) g1.world).2⟩).outcome⟩ := by
    intro task c rest g1 hc
    have hE := ExecuteAndPipeToLogger_ok hc (stripped c) task.Metadata
    simp only [stripped] at hE hc ⊢
    simp only [runCommands, hE, Run.andThen_returned, List.cons_append, List.nil_append]
  have hfunc : ∀ task f rest (g1 : Globals σ), (env.call f task g1.world).err = none →
      runTasks env task (f :: rest) g1 =
        ⟨.call f task none (env.call f task g1.world).added ::
          (runTasks env task rest ⟨AddTasks g1.TaskList (env.call f task g1.world).added,
            (env.call f task g1.world).world⟩).trace,
         (runTasks env task rest ⟨AddTasks g1.TaskList (env.call f task g1.world).added,
            (env.call f task g1.world).world⟩).outcome⟩ := by
    intro task f rest g1 hf
    simp only [runTasks, hf, Run.andThen_returned, List.singleton_append]
  by_cases hne : g.TaskList = []
  · have hrun : RunAllTasks env options fuel g =
        ⟨[.log (some "COMMAND") FatalLevel "Task list is empty!"], .fatal g⟩ := by
      simp [RunAllTasks, hne]
    rw [hrun]
    refine ⟨?_, ?_, fun h => absurd hne h, fun h => absurd hne h, hfunc, hnext⟩
    · intro pre x post htr hx
      have htr1 : [Event.log (some "COMMAND") FatalLevel "Task list is empty!"] =
          pre ++ x :: post := htr
      have hmem : x ∈ [Event.log (some "COMMAND") FatalLevel "Task list is empty!"] := by
        rw [htr1]
        simp
      simp only [List.mem_singleton] at hmem
      rw [hmem] at hx
      simp [Event.failed] at hx
    · intro pre cmd m r post htr _
      have htr1 : [Event.log (some "COMMAND") FatalLevel "Task list is empty!"] =
          pre ++ Event.exec cmd m r :: post := htr
      have hmem : Event.exec cmd m r ∈
          [Event.log (some "COMMAND") FatalLevel "Task list is empty!"] := by
        rw [htr1]
        simp
      simp at hmem
  · have hrun : RunAllTasks env options fuel g = RunAllTasks.loop env fuel g := by
      simp [RunAllTasks, hne]
    rw [hrun]
    obtain ⟨s1, s2, s3, s4⟩ := RunAllTasks.loop_sound env fuel g
    refine ⟨?_, ?_, ?_, fun _ => RunAllTasks.loop_runs env fuel g, hfunc, hnext⟩
    · intro pre x post htr hx
      rw [htr] at s1
      obtain ⟨h1, h2⟩ := failStop_split s1 hx
      obtain ⟨g1, hg1⟩ := s3.1 ⟨x, by rw [htr]; simp, hx⟩
      obtain ⟨c, m, hl⟩ := s4 g1 hg1
      rw [htr, List.getLast?_append_cons] at hl
      exact ⟨⟨g1, hg1⟩, h1, h2, c, m, hl⟩
    · intro pre cmd m r post htr hr
      rw [htr] at s2
      exact finishFollows_split s2 hr
    · intro _ hclean g1
      refine ⟨?_, RunAllTasks.loop_not_panicked env fuel g g1⟩
      intro hfat
      obtain ⟨e, he, hf⟩ := s3.2 ⟨g1, hfat⟩
      rw [hclean e he] at hf
      cases hf

/-- Witness of `RunAllTasks_fails_fast`: the first inline function of the
first task fails; its other functions, its commands and the next task are not
run. -/
theorem RunAllTasks_fails_fast_witness :
    (RunAllTasks failingEnv DefaultRunAllTasksOptions 1 ⟨[buildTask, followUpTask], ()⟩).trace =
      [.call 1 (funcTask buildTask) (some "boom") []] ++
        [.log (some "FAILED") FatalLevel "$ Task > boom"] ∧
    (∃ g1, (RunAllTasks failingEnv DefaultRunAllTasksOptions 1
      ⟨[buildTask, followUpTask], ()⟩).outcome = .fatal g1) :=
  ⟨by decide,
   ((RunAllTasks_fails_fast failingEnv DefaultRunAllTasksOptions 1
      ⟨[buildTask, followUpTask], ()⟩).1 []
      (.call 1 (funcTask buildTask) (some "boom") [])
      [.log (some "FAILED") FatalLevel "$ Task > boom"] (by decide) rfl).1⟩

/-! ## Records around a command -/

theorem commandBlocks_weaken {task : Task} {c : Command} {cs : List Command}
    {tr : List Event} (h : commandBlocks task cs tr) : commandBlocks task (c :: cs) tr := by
  induction tr with
  | nil => trivial
  | cons x rest ih =>
    refine ⟨?_, ih h.2⟩
    intro cmd m r post hrest
    obtain ⟨c1, hc1, hx⟩ := h.1 cmd m r post hrest
    exact ⟨c1, List.mem_cons_of_mem _ hc1, hx⟩

theorem commandBlocks_split {task : Task} {cs : List Command} {pre post : List Event}
    {cmd : Cmd} {m : TaskMetadata} {r : ProcResult}
    (h : commandBlocks task cs (pre ++ .exec cmd m r :: post)) (hpre : pre ≠ []) :
    ∃ pre1 x, pre = pre1 ++ [x] ∧ blockHead task cs x (.exec cmd m r :: post) := by
  induction pre with
  | nil => exact absurd rfl hpre
  | cons y rest ih =>
    cases rest with
    | nil => exact ⟨[], y, rfl, h.1⟩
    | cons z rest1 =>
      obtain ⟨pre1, x, hx, hb⟩ := ih h.2 (by simp)
      exact ⟨y :: pre1, x, by simp [hx], hb⟩

theorem runCommands_trace_head {σ : Type} (env : Env σ) (task : Task) (cs : List Command)
    (g : Globals σ) (cmd : Cmd) (m : TaskMetadata) (r : ProcResult) (post : List Event) :
    (runCommands env task cs g).trace ≠ .exec cmd m r :: post := by
  cases cs with
  | nil => simp [runCommands]
  | cons c rest =>
    simp only [runCommands]
    split <;> simp [Run.andThen_returned]

theorem runCommands_blocks {σ : Type} (env : Env σ) (task : Task) (cs : List Command)
    (g : Globals σ) : commandBlocks task cs (runCommands env task cs g).trace := by
  induction cs generalizing g with
  | nil => simp [runCommands, commandBlocks]
  | cons c rest ih =>
    simp only [runCommands]
    generalize env.proc
      { Path := c.Path, Args := DeleteEmptyStringsFromSlice c.Args, Err := c.Err } g.world = p
    rcases p with ⟨⟨a, b, st, wt, x⟩, w⟩
    have hhead : ∀ (r : ProcResult) (tail : List Event),
        (∀ err, (ExecuteAndPipeToLogger r (stripped c) task.Metadata).2 = .returned (some err) →
          tail.getLast? = some (.log (some "FAILED") FatalLevel
            ("$ " ++ Join c.Args " " ++ " > " ++ err))) →
        ((ExecuteAndPipeToLogger r (stripped c) task.Metadata).2 = .returned none →
          ∃ post1, tail = .capture .stdout task.Metadata task.Metadata.StdOutLogLevel ::
            .capture .stderr task.Metadata task.Metadata.StdErrLogLevel ::
            .log (some "FINISH") InfoLevel (Join c.Args " ") :: post1) →
        ((ExecuteAndPipeToLogger r (stripped c) task.Metadata).2 = .fatal →
          .exec (stripped c) task.Metadata r :: tail =
            (ExecuteAndPipeToLogger r (stripped c) task.Metadata).1) →
        blockHead task (c :: rest) (.log (some "RUN") InfoLevel ("$ " ++ Join c.Args " "))
          (.exec (stripped c) task.Metadata r :: tail) := by
      intro r tail h1 h2 h3 cmd m r1 post heq
      simp only [List.cons.injEq, Event.exec.injEq] at heq
      obtain ⟨⟨rfl, rfl, rfl⟩, rfl⟩ := heq
      exact ⟨c, List.mem_cons_self _ _, rfl, rfl, rfl, h1, h2, h3⟩
    have hskip : ∀ (x : Event) (tail : List Event),
        (∀ cmd m r post, tail ≠ .exec cmd m r :: post) →
        blockHead task (c :: rest) x tail := by
      intro x tail h cmd m r post heq
      exact absurd heq (h cmd m r post)
    cases a with
    | some e =>
      simp only [ExecuteAndPipeToLogger, CreateCommandReaders, commandBlocks]
      refine ⟨hhead _ _ ?_ ?_ ?_, hskip _ _ (by simp), hskip _ _ (by simp), trivial⟩ <;>
        simp [ExecuteAndPipeToLogger, CreateCommandReaders, stripped]
    | none =>
      cases b with
      | some e =>
        simp only [ExecuteAndPipeToLogger, CreateCommandReaders, commandBlocks]
        refine ⟨hhead _ _ ?_ ?_ ?_, hskip _ _ (by simp), hskip _ _ (by simp), trivial⟩ <;>
          simp [ExecuteAndPipeToLogger, CreateCommandReaders, stripped]
      | none =>
        cases st with
        | some e =>
          simp only [ExecuteAndPipeToLogger, CreateCommandReaders, commandBlocks]
          refine ⟨hhead _ _ ?_ ?_ ?_, hskip _ _ (by simp), hskip _ _ (by simp), trivial⟩ <;>
            simp [ExecuteAndPipeToLogger, CreateCommandReaders, stripped]
        | none =>
          cases wt with
          | some e =>
            cases x with
            | some status =>
              simp only [ExecuteAndPipeToLogger, CreateCommandReaders, commandBlocks,
                List.cons_append, List.nil_append]
              refine ⟨hhead _ _ ?_ ?_ ?_, hskip _ _ (by simp), hskip _ _ (by simp),
                hskip _ _ (by simp), hskip _ _ (by simp), hskip _ _ (by simp), trivial⟩ <;>
                simp [ExecuteAndPipeToLogger, CreateCommandReaders, stripped]
            | none =>
              simp only [ExecuteAndPipeToLogger, CreateCommandReaders, commandBlocks,
                List.cons_append, List.nil_append]
              refine ⟨hhead _ _ ?_ ?_ ?_, hskip _ _ (by simp), hskip _ _ (by simp),
                hskip _ _ (by simp), hskip _ _ (by simp), trivial⟩ <;>
                simp [ExecuteAndPipeToLogger, CreateCommandReaders, stripped]
          | none =>
            simp only [ExecuteAndPipeToLogger, CreateCommandReaders, Run.andThen_returned,
              commandBlocks, List.cons_append, List.nil_append]
            refine ⟨hhead _ _ ?_ ?_ ?_, hskip _ _ (by simp), hskip _ _ (by simp),
              hskip _ _ (by simp), hskip _ _ (runCommands_trace_head env task rest _),
              commandBlocks_weaken (ih _)⟩ <;>
              simp [ExecuteAndPipeToLogger, CreateCommandReaders, stripped]

/-! ## The fatal record -/

theorem fatalLast_append {a b : List Event} (ha : ∀ e ∈ a, e.isFatal = false)
    (hb : fatalLast b) : fatalLast (a ++ b) := by
  induction a with
  | nil => simpa using hb
  | cons x rest ih =>
    simp only [List.cons_append, fatalLast]
    refine ⟨?_, ih (fun e he => ha e (List.mem_cons_of_mem _ he))⟩
    intro hx
    rw [ha x (List.mem_cons_self _ _)] at hx
    cases hx

theorem fatalLast_split {pre post : List Event} {e : Event}
    (h : fatalLast (pre ++ e :: post)) (he : e.isFatal = true) : post = [] := by
  induction pre with
  | nil => exact h.1 he
  | cons y rest ih => exact ih h.2

theorem Run.oneFatal_andThen {σ : Type} {r : Run σ} {k : Globals σ → Run σ} (hr : r.oneFatal)
    (hk : ∀ g, (k g).oneFatal) : (r.andThen k).oneFatal := by
  unfold Run.andThen
  split
  · next g hg =>
    have hclean : ∀ e ∈ r.trace, e.isFatal = false := by
      intro e he
      by_contra hf
      have hf1 : e.isFatal = true := by simpa using hf
      obtain ⟨g1, hg1⟩ := hr.2 ⟨e, he, hf1⟩
      rw [hg] at hg1
      cases hg1
    refine ⟨fatalLast_append hclean (hk g).1, ?_⟩
    rintro ⟨e, he, hf⟩
    rcases List.mem_append.1 he with h | h
    · rw [hclean e h] at hf
      cases hf
    · exact (hk g).2 ⟨e, h, hf⟩
  · exact hr

theorem runTasks_oneFatal {σ : Type} (env : Env σ) (task : Task) (fs : List TaskFunc)
    (g : Globals σ) : (runTasks env task fs g).oneFatal := by
  induction fs generalizing g with
  | nil => simp [runTasks, Run.oneFatal, fatalLast]
  | cons f rest ih =>
    simp only [runTasks]
    split
    · simp [Run.oneFatal, fatalLast, Event.isFatal]
    · apply Run.oneFatal_andThen _ (fun g1 => ih g1)
      simp [Run.oneFatal, fatalLast, Event.isFatal]

theorem runCommands_oneFatal {σ : Type} (env : Env σ) (task : Task) (cs : List Command)
    (g : Globals σ) : (runCommands env task cs g).oneFatal := by
  induction cs generalizing g with
  | nil => simp [runCommands, Run.oneFatal, fatalLast]
  | cons c rest ih =>
    simp only [runCommands]
    generalize env.proc
      { Path := c.Path, Args := DeleteEmptyStringsFromSlice c.Args, Err := c.Err } g.world = p
    rcases p with ⟨⟨a, b, st, wt, x⟩, w⟩
    cases a with
    | some e =>
      simp [ExecuteAndPipeToLogger, CreateCommandReaders, Run.oneFatal, fatalLast,
        Event.isFatal]
    | none =>
      cases b with
      | some e =>
        simp [ExecuteAndPipeToLogger, CreateCommandReaders, Run.oneFatal, fatalLast,
          Event.isFatal]
      | none =>
        cases st with
        | some e =>
          simp [ExecuteAndPipeToLogger, CreateCommandReaders, Run.oneFatal, fatalLast,
            Event.isFatal]
        | none =>
          cases wt with
          | some e =>
            cases x <;>
              simp [ExecuteAndPipeToLogger, CreateCommandReaders, Run.oneFatal, fatalLast,
                Event.isFatal]
          | none =>
            simp only [ExecuteAndPipeToLogger, CreateCommandReaders]
            apply Run.oneFatal_andThen _ (fun g1 => ih g1)
            simp [Run.oneFatal, fatalLast, Event.isFatal]

theorem runTasks_failed_call {σ : Type} (env : Env σ) (task : Task) (fs : List TaskFunc)
    (g : Globals σ) (pre post : List Event) (f : TaskFunc) (t : Task) (err : String)
    (added : List Task)
    (h : (runTasks env task fs g).trace = pre ++ .call f t (some err) added :: post) :
    post = [.log (some "FAILED") FatalLevel ("$ Task > " ++ err)] := by
  induction fs generalizing g pre with
  | nil => simp [runTasks] at h
  | cons f1 rest ih =>
    simp only [runTasks] at h
    split at h
    · next err1 herr =>
      cases pre with
      | nil =>
        simp only [List.nil_append, List.cons.injEq, Event.call.injEq, Option.some.injEq] at h
        obtain ⟨⟨_, _, rfl, _⟩, rfl⟩ := h
        rfl
      | cons y pre1 =>
        simp only [List.cons_append, List.cons.injEq] at h
        have h2 := h.2
        cases pre1 with
        | nil => simp at h2
        | cons z pre2 => simp at h2
    · next herr =>
      rw [Run.andThen_returned] at h
      cases pre with
      | nil => simp at h
      | cons y pre1 =>
        simp only [List.singleton_append, List.cons_append, List.cons.injEq] at h
        exact ih _ pre1 h.2

/-- Claim C6, as the code has it.  The record that reports a failed step is the
only record of level fatal and the last event, and it is built from the error
and the command alone, whatever the label of the task:
* for an inline function that returned `err`: context "FAILED", message
  "$ Task > " followed by `err`, right after the call;
* for a command whose wait returned `err`: context "FAILED", message "$ ", the
  space-joined declared command line (the one logged under "RUN" before the
  command), " > " and `err`;
* for a command whose stdout or stderr pipe cannot be created: no context
  field, message "Failed creating command stdout pipe: " or "Failed creating
  command stderr pipe: " followed by the error, and no command line;
* for a command that cannot be started: context "FAILED", message "Can not
  start the command: " followed by the command as `%s` formats it (with the
  stripped arguments), and no error text. -/
theorem fatal_record_of_failed_step {σ : Type} (env : Env σ) (task : Task) :
    (∀ fs g pre f t err added post,
      (runTasks env task fs g).trace = pre ++ .call f t (some err) added :: post →
        post = [.log (some "FAILED") FatalLevel ("$ Task > " ++ err)]) ∧
    (∀ cs g pre cmd m r post,
      (runCommands env task cs g).trace = pre ++ .exec cmd m r :: post →
        ∃ pre1 c, c ∈ cs ∧
          pre = pre1 ++ [.log (some "RUN") InfoLevel ("$ " ++ Join c.Args " ")] ∧
          cmd = stripped c ∧
          (∀ err, r.stdoutPipe = some err →
            post = [.log none FatalLevel ("Failed creating command stdout pipe: " ++ err)]) ∧
          (∀ err, r.stdoutPipe = none → r.stderrPipe = some err →
            post = [.log none FatalLevel ("Failed creating command stderr pipe: " ++ err)]) ∧
          (∀ err, r.stdoutPipe = none → r.stderrPipe = none → r.start = some err →
            post = [.log (some "FAILED") FatalLevel
              ("Can not start the command: " ++ (stripped c).String)]) ∧
          (∀ err, r.stdoutPipe = none → r.stderrPipe = none → r.start = none →
            r.wait = some err →
            post.getLast? = some (.log (some "FAILED") FatalLevel
              ("$ " ++ Join c.Args " " ++ " > " ++ err)))) ∧
    (∀ fs g pre e post, (runTasks env task fs g).trace = pre ++ e :: post →
      e.isFatal = true → post = []) ∧
    (∀ cs g pre e post, (runCommands env task cs g).trace = pre ++ e :: post →
      e.isFatal = true → post = []) := by
  refine ⟨?_, ?_, ?_, ?_⟩
  · intro fs g pre f t err added post h
    exact runTasks_failed_call env task fs g pre post f t err added h
  · intro cs g pre cmd m r post h
    have hb := runCommands_blocks env task cs g
    rw [h] at hb
    have hpre : pre ≠ [] := by
      intro hnil
      rw [hnil] at h
      exact runCommands_trace_head env task cs g cmd m r post h
    obtain ⟨pre1, x, hx, hhead⟩ := commandBlocks_split hb hpre
    obtain ⟨c, hc, hrun, hcmd, _, hfail, _, hfatal⟩ := hhead cmd m r post rfl
    subst hcmd
    refine ⟨pre1, c, hc, by rw [hx, hrun], rfl, ?_, ?_, ?_, ?_⟩
    · intro err h1
      have h2 := hfatal (by simp [ExecuteAndPipeToLogger, CreateCommandReaders, h1])
      simpa [ExecuteAndPipeToLogger, CreateCommandReaders, h1] using h2
    · intro err h0 h1
      have h2 := hfatal (by simp [ExecuteAndPipeToLogger, CreateCommandReaders, h0, h1])
      simpa [ExecuteAndPipeToLogger, CreateCommandReaders, h0, h1] using h2
    · intro err h0 h1 h3
      have h2 := hfatal (by simp [ExecuteAndPipeToLogger, CreateCommandReaders, h0, h1, h3])
      simpa [ExecuteAndPipeToLogger, CreateCommandReaders, h0, h1, h3] using h2
    · intro err h0 h1 h3 h4
      apply hfail err
      cases hx : r.exitStatus <;>
        simp [ExecuteAndPipeToLogger, CreateCommandReaders, h0, h1, h3, h4, hx]
  · intro fs g pre e post h he
    have h1 := (runTasks_oneFatal env task fs g).1
    rw [h] at h1
    exact fatalLast_split h1 he
  · intro cs g pre e post h he
    have h1 := (runCommands_oneFatal env task cs g).1
    rw [h] at h1
    exact fatalLast_split h1 he

/-- Claim C6 fails as stated.  The fatal record for the failing inline function
of the task "Verify" and the one for the failing command of the task "Check"
carry the context "FAILED" and do not mention the label of the task; the
record for the command of the task "Probe", whose stdout pipe cannot be
created, has no context field and mentions neither the label nor the command
line; the record for the command of the task "Launch", which cannot be
started, mentions neither the label nor the error. -/
theorem fatal_record_omits_task_context :
    (RunAllTasks failingEnv DefaultRunAllTasksOptions 1 ⟨[verifyTask], ()⟩).trace =
      [.call 1 (funcTask verifyTask) (some "boom") [],
       .log (some "FAILED") FatalLevel "$ Task > boom"] ∧
    Event.mentions "Verify" (.log (some "FAILED") FatalLevel "$ Task > boom") = false ∧
    (RunAllTasks failingEnv DefaultRunAllTasksOptions 1 ⟨[checkTask], ()⟩).trace =
      [.log (some "RUN") InfoLevel "$ false  --now",
       .exec { Path := "/bin/false", Args := ["false", "--now"] }
         ⟨"Check", false, InfoLevel, WarnLevel⟩
         ⟨none, none, none, some "exit status 1", some 1⟩,
       .capture .stdout ⟨"Check", false, InfoLevel, WarnLevel⟩ InfoLevel,
       .capture .stderr ⟨"Check", false, InfoLevel, WarnLevel⟩ WarnLevel,
       .log (some "EXIT") DebugLevel "Exit Status: 1",
       .log (some "FAILED") FatalLevel "$ false  --now > exit status 1"] ∧
    Event.mentions "Check"
      (.log (some "FAILED") FatalLevel "$ false  --now > exit status 1") = false ∧
    (RunAllTasks refusingEnv DefaultRunAllTasksOptions 1 ⟨[probeTask], ()⟩).trace =
      [.log (some "RUN") InfoLevel "$ nopipe -v",
       .exec { Path := "/bin/nopipe", Args := ["nopipe", "-v"] }
         ⟨"Probe", false, InfoLevel, WarnLevel⟩
         ⟨some "exec: Stdout already set", none, none, none, none⟩,
       .log none FatalLevel
         "Failed creating command stdout pipe: exec: Stdout already set"] ∧
    Event.mentions "Probe" (.log none FatalLevel
      "Failed creating command stdout pipe: exec: Stdout already set") = false ∧
    Event.mentions "nopipe -v" (.log none FatalLevel
      "Failed creating command stdout pipe: exec: Stdout already set") = false ∧
    (RunAllTasks refusingEnv DefaultRunAllTasksOptions 1 ⟨[launchTask], ()⟩).trace =
      [.log (some "RUN") InfoLevel "$ missing  --x",
       .exec { Path := "/bin/missing", Args := ["missing", "--x"] }
         ⟨"Launch", false, InfoLevel, WarnLevel⟩
         ⟨none, none, some "no such file", none, none⟩,
       .log (some "FAILED") FatalLevel "Can not start the command: /bin/missing --x"] ∧
    Event.mentions "Launch"
      (.log (some "FAILED") FatalLevel "Can not start the command: /bin/missing --x") = false ∧
    Event.mentions "no such file"
      (.log (some "FAILED") FatalLevel "Can not start the command: /bin/missing --x") =
        false := by
  decide

/-! ## Stripping of empty arguments -/

/-- Claim C8.  Every command `runCommands` executes is a declared command `c`
whose argument list has been passed through `DeleteEmptyStringsFromSlice`
(no empty string left, the other arguments kept in order), while the record
under "RUN" right before it, the record under "FINISH" after a success and the
fatal record after a returned error carry the space-join of the arguments of
`c` as declared. -/
theorem runCommands_strips_arguments {σ : Type} (env : Env σ) (task : Task)
    (cs : List Command) (g : Globals σ) :
    (∀ pre cmd m r post, (runCommands env task cs g).trace = pre ++ .exec cmd m r :: post →
      ∃ pre1 c, c ∈ cs ∧
        pre = pre1 ++ [.log (some "RUN") InfoLevel ("$ " ++ Join c.Args " ")] ∧
        cmd.Path = c.Path ∧ cmd.Args = DeleteEmptyStringsFromSlice c.Args ∧
        (∀ err, (ExecuteAndPipeToLogger r cmd m).2 = .returned (some err) →
          post.getLast? = some (.log (some "FAILED") FatalLevel
            ("$ " ++ Join c.Args " " ++ " > " ++ err))) ∧
        ((ExecuteAndPipeToLogger r cmd m).2 = .returned none →
          ∃ post1, post = .capture .stdout m m.StdOutLogLevel ::
            .capture .stderr m m.StdErrLogLevel ::
            .log (some "FINISH") InfoLevel (Join c.Args " ") :: post1)) ∧
    (∀ s : List String, "" ∉ DeleteEmptyStringsFromSlice s ∧
      (DeleteEmptyStringsFromSlice s).Sublist s ∧
      ∀ a, a ≠ "" → (DeleteEmptyStringsFromSlice s).count a = s.count a) ∧
    DeleteEmptyStringsFromSlice ["run", "", "--flag", ""] = ["run", "--flag"] ∧
    (runCommands quietEnv buildTask [{ Path := "/bin/tool", Args := ["run", "", "--flag", ""] }]
        ⟨[], ()⟩).trace =
      [.log (some "RUN") InfoLevel "$ run  --flag ",
       .exec { Path := "/bin/tool", Args := ["run", "--flag"] } buildTask.Metadata
         ⟨none, none, none, none, none⟩,
       .capture .stdout buildTask.Metadata DebugLevel,
       .capture .stderr buildTask.Metadata ErrorLevel,
       .log (some "FINISH") InfoLevel "run  --flag "] := by
  refine ⟨?_, ?_, by decide, by decide⟩
  · intro pre cmd m r post h
    have hb := runCommands_blocks env task cs g
    rw [h] at hb
    have hpre : pre ≠ [] := by
      intro hnil
      rw [hnil] at h
      exact runCommands_trace_head env task cs g cmd m r post h
    obtain ⟨pre1, x, hx, hhead⟩ := commandBlocks_split hb hpre
    obtain ⟨c, hc, hrun, hcmd, _, hfail, hfin, _⟩ := hhead cmd m r post rfl
    refine ⟨pre1, c, hc, by rw [hx, hrun], ?_, ?_, hfail, hfin⟩
    · rw [hcmd]
      rfl
    · rw [hcmd]
      rfl
  · intro s
    refine ⟨?_, ?_, ?_⟩
    · simp [DeleteEmptyStringsFromSlice]
    · exact List.filter_sublist _
    · intro a ha
      unfold DeleteEmptyStringsFromSlice
      rw [List.count_filter]
      simpa using ha

/-! ## Line forwarding -/

theorem ReadString.scan_line (l rest : List Char) (h : '\n' ∉ l) :
    ReadString.scan '\n' (l ++ '\n' :: rest) = some (l ++ ['\n'], rest) := by
  induction l with
  | nil => simp [ReadString.scan]
  | cons c cs ih =>
    simp only [List.mem_cons, not_or] at h
    have hc : c ≠ '\n' := fun hc => h.1 hc.symm
    simp [ReadString.scan, hc, ih h.2]

theorem ReadString.scan_unterminated (l : List Char) (h : '\n' ∉ l) :
    ReadString.scan '\n' l = none := by
  induction l with
  | nil => rfl
  | cons c cs ih =>
    simp only [List.mem_cons, not_or] at h
    have hc : c ≠ '\n' := fun hc => h.1 hc.symm
    simp [ReadString.scan, hc, ih h.2]

/-- At a level above `PanicLevel` the loop of `HandleOutputStreamReader`
terminates and forwards exactly the newline-terminated lines of the stream,
one record each, in order; what comes after the last newline is not
forwarded. -/
theorem HandleOutputStreamReader_forwards_terminated_lines (lines : List (List Char))
    (last : List Char) (hlines : ∀ l ∈ lines, '\n' ∉ l) (hlast : '\n' ∉ last)
    (context : TaskMetadata) (level : Level) (hlevel : PanicLevel < level) (fuel : Nat)
    (hfuel : lines.length < fuel) :
    HandleOutputStreamReader fuel (lines.flatMap (fun l => l ++ ['\n']) ++ last) context level =
      some (lines.map (fun l =>
        Event.log (if context.Context != "" then some context.Context else none) level
          (String.mk (l ++ ['\n'])))) := by
  unfold HandleOutputStreamReader
  simp only
  generalize (if context.Context != "" then some context.Context else none) = log
  induction lines generalizing fuel with
  | nil =>
    cases fuel with
    | zero => simp at hfuel
    | succ n =>
      simp [HandleOutputStreamReader.loop, ReadString, ReadString.scan_unterminated last hlast]
  | cons l rest ih =>
    cases fuel with
    | zero => simp at hfuel
    | succ n =>
      have hl : '\n' ∉ l := hlines l (List.mem_cons_self _ _)
      have hrest := ih (fun l1 h1 => hlines l1 (List.mem_cons_of_mem _ h1)) n
        (by simpa using hfuel)
      have hshape : (l :: rest).flatMap (fun l => l ++ ['\n']) ++ last =
          l ++ '\n' :: (rest.flatMap (fun l => l ++ ['\n']) ++ last) := by
        simp [List.flatMap_cons]
      have hnot : ¬ level ≤ PanicLevel := Nat.not_le.2 hlevel
      rw [hshape]
      simp only [HandleOutputStreamReader.loop, ReadString, ReadString.scan_line l _ hl, hrest,
        List.map_cons, hnot, if_false]

/-- At level `PanicLevel` the loop of `HandleOutputStreamReader` ends with the
first line: the logger panics once the record is written. -/
theorem HandleOutputStreamReader_panic_level :
    HandleOutputStreamReader 8 ['a', '\n', 'b', '\n'] ⟨"build", false, PanicLevel, PanicLevel⟩
        PanicLevel =
      some [.log (some "build") PanicLevel "a\n", .panic] := by
  decide

/-- Claim C5 fails on the code: for the two-line text "a\nb", whose last line
has no newline, `HandleOutputStreamReader` emits one record only; the line
"b", which `ReadString` returns together with `io.EOF`, is dropped. -/
theorem HandleOutputStreamReader_drops_unterminated_line :
    HandleOutputStreamReader 8 ['a', '\n', 'b'] ⟨"build", false, InfoLevel, WarnLevel⟩
        InfoLevel =
      some [.log (some "build") InfoLevel "a\n"] ∧
    ReadString ['b'] '\n' = ("b", [], true) := by
  decide

end utils

namespace utils.mem

/-! ## Slices without spare capacity behave as values -/

theorem Run.agrees_andThen {σ : Type} {m : Memory} {r : Run σ} {v : utils.Run σ}
    {k : Globals σ → Run σ} {kv : utils.Globals σ → utils.Run σ} (h : r.agrees m v)
    (hk : ∀ g, g.memory = m → (∀ t ∈ g.TaskList, t.full) → (k g).agrees m (kv g.view)) :
    (r.andThen k).agrees m (v.andThen kv) := by
  obtain ⟨h1, h2, h3, h4⟩ := h
  rcases r with ⟨tr, out⟩
  rcases v with ⟨trv, outv⟩
  simp only at h1 h2 h3 h4
  subst h1
  cases out with
  | returned g =>
    simp only [Outcome.view] at h2
    subst h2
    obtain ⟨k1, k2, k3, k4⟩ := hk g h3 h4
    exact ⟨by simp [Run.andThen, utils.Run.andThen, k1], by simpa [Run.andThen,
      utils.Run.andThen] using k2, by simpa [Run.andThen] using k3,
      by simpa [Run.andThen] using k4⟩
  | fatal g =>
    simp only [Outcome.view] at h2
    subst h2
    exact ⟨rfl, rfl, h3, h4⟩
  | panicked g =>
    simp only [Outcome.view] at h2
    subst h2
    exact ⟨rfl, rfl, h3, h4⟩
  | running g =>
    simp only [Outcome.view] at h2
    subst h2
    exact ⟨rfl, rfl, h3, h4⟩

theorem runTasks_agrees {σ : Type} (env : Env σ)
    (henv : ∀ f t w, ∀ u ∈ (env.call f t w).added, u.full) (task : utils.Task)
    (fs : List TaskFunc) (g : Globals σ) (hg : ∀ t ∈ g.TaskList, t.full) :
    (runTasks env task fs g).agrees g.memory
      (utils.runTasks (env.view g.memory) task fs g.view) := by
  induction fs generalizing g with
  | nil => exact ⟨rfl, rfl, rfl, hg⟩
  | cons f rest ih =>
    have hfull : ∀ t ∈ AddTasks g.TaskList (env.call f task g.world).added, t.full := by
      intro t ht
      rcases List.mem_append.1 ht with h | h
      · exact hg t h
      · exact henv f task g.world t h
    simp only [runTasks, utils.runTasks]
    cases herr : (env.call f task g.world).err with
    | some err =>
      simp only [Env.view, Globals.view, herr]
      exact ⟨rfl, by simp [Outcome.view, Globals.view, AddTasks, utils.AddTasks], rfl, hfull⟩
    | none =>
      simp only [Env.view, Globals.view, herr]
      apply Run.agrees_andThen
      · exact ⟨rfl, by simp [Outcome.view, Globals.view, AddTasks, utils.AddTasks], rfl, hfull⟩
      · intro g1 hm hq
        have h := ih g1 hq
        rw [hm] at h
        exact h

theorem runCommands_agrees {σ : Type} (env : Env σ) (task : utils.Task)
    (cs : List Command) (g : Globals σ) (hg : ∀ t ∈ g.TaskList, t.full) :
    (runCommands env task cs g).agrees g.memory
      (utils.runCommands (env.view g.memory) task cs g.view) := by
  induction cs generalizing g with
  | nil => exact ⟨rfl, rfl, rfl, hg⟩
  | cons c rest ih =>
    simp only [runCommands, utils.runCommands, Env.view, Globals.view]
    split
    · exact ⟨rfl, rfl, rfl, hg⟩
    · exact ⟨rfl, rfl, rfl, hg⟩
    · apply Run.agrees_andThen
      · exact ⟨rfl, rfl, rfl, hg⟩
      · intro g1 hm hq
        have h := ih g1 hq
        rw [hm] at h
        exact h

theorem append_full {α : Type} (cells : Nat → Nat → α) (s : Option Slice) (x : α)
    (h : ∀ s1, s = some s1 → s1.cap ≤ s1.len) :
    append cells s x = (elements cells s ++ [x], cells) := by
  cases s with
  | none => rfl
  | some s1 =>
    have h1 : ¬ s1.len < s1.cap := Nat.not_lt.2 (h s1 rfl)
    simp [append, h1]

theorem RunAllTasks.iteration_skipped {σ : Type} (env : Env σ) (t : Task) (g : Globals σ)
    (h : t.Metadata.Skip = true) :
    RunAllTasks.iteration env t g =
      ⟨[.log none WarnLevel ("Task skipped: " ++ t.Metadata.Context)], .returned g⟩ := by
  rcases t with ⟨cmd, cmds, f, fs, ⟨ctx, skip, so, se⟩, lg⟩
  simp only at h
  subst h
  unfold RunAllTasks.iteration
  by_cases h1 : so = 0 <;> by_cases h2 : se = 0 <;> simp [h1, h2]

theorem RunAllTasks.iteration_full {σ : Type} (env : Env σ) (t : Task) (g : Globals σ)
    (h : t.Metadata.Skip = false) (ht : t.full) :
    RunAllTasks.iteration env t g =
      Run.andThen
        (runTasks env (funcTask (t.view g.memory)) (functionsOf (t.view g.memory)) g)
        (fun g1 => runCommands env
          { funcTask (t.view g.memory) with Commands := some (commandsOf (t.view g1.memory)) }
          (commandsOf (t.view g1.memory)) g1) := by
  rcases t with ⟨cmd, cmds, f, fs, ⟨ctx, skip, so, se⟩, lg⟩
  rcases g with ⟨q, ⟨mf, mc⟩, w⟩
  simp only at h
  subst h
  obtain ⟨hfs, hcs⟩ := ht
  simp only at hfs hcs
  unfold RunAllTasks.iteration
  by_cases h1 : so = 0 <;> by_cases h2 : se = 0 <;> cases fs <;> cases f <;>
    cases cmds <;> cases cmd <;>
    simp [h1, h2, funcTask, cmdTask, functionsOf, commandsOf, normalize, Task.view,
      append_full, hfs, hcs, elements]

theorem RunAllTasks.iteration_agrees {σ : Type} (env : Env σ)
    (henv : ∀ f t w, ∀ u ∈ (env.call f t w).added, u.full) (t : Task) (ht : t.full)
    (g : Globals σ) (hg : ∀ t ∈ g.TaskList, t.full) :
    (RunAllTasks.iteration env t g).agrees g.memory
      (utils.RunAllTasks.iteration (env.view g.memory) (t.view g.memory) g.view) := by
  cases hs : t.Metadata.Skip with
  | true =>
    rw [RunAllTasks.iteration_skipped env t g hs,
      utils.RunAllTasks.iteration_skip (env.view g.memory) (t.view g.memory) g.view hs]
    exact ⟨rfl, rfl, rfl, hg⟩
  | false =>
    rw [RunAllTasks.iteration_full env t g hs ht,
      utils.RunAllTasks.iteration_run (env.view g.memory) (t.view g.memory) g.view hs]
    apply Run.agrees_andThen (runTasks_agrees env henv _ _ g hg)
    intro g1 hm hq
    rw [← hm]
    exact runCommands_agrees env (cmdTask (t.view g1.memory))
      (commandsOf (t.view g1.memory)) g1 hq

theorem RunAllTasks.range_agrees {σ : Type} (env : Env σ)
    (henv : ∀ f t w, ∀ u ∈ (env.call f t w).added, u.full) (snapshot : List Task)
    (hs : ∀ t ∈ snapshot, t.full) (g : Globals σ) (hg : ∀ t ∈ g.TaskList, t.full) :
    (RunAllTasks.range env snapshot g).agrees g.memory
      (utils.RunAllTasks.range (env.view g.memory) (snapshot.map (Task.view g.memory))
        g.view) := by
  induction snapshot generalizing g with
  | nil => exact ⟨rfl, rfl, rfl, hg⟩
  | cons t rest ih =>
    simp only [RunAllTasks.range, utils.RunAllTasks.range, List.map_cons]
    apply Run.agrees_andThen
      (RunAllTasks.iteration_agrees env henv t (hs t (List.mem_cons_self _ _)) g hg)
    intro g1 hm hq
    rcases g1 with ⟨q, m1, w⟩
    simp only at hm
    subst hm
    cases q with
    | nil => exact ⟨rfl, rfl, rfl, by simp [Outcome.state]⟩
    | cons u tl =>
      simp only [Globals.view, List.map_cons]
      exact ih (fun t1 h1 => hs t1 (List.mem_cons_of_mem _ h1)) ⟨tl, g.memory, w⟩
        (fun t1 h1 => hq t1 (List.mem_cons_of_mem _ h1))

theorem RunAllTasks.loop_agrees {σ : Type} (env : Env σ)
    (henv : ∀ f t w, ∀ u ∈ (env.call f t w).added, u.full) (fuel : Nat) (g : Globals σ)
    (hg : ∀ t ∈ g.TaskList, t.full) :
    (RunAllTasks.loop env fuel g).agrees g.memory
      (utils.RunAllTasks.loop (env.view g.memory) fuel g.view) := by
  induction fuel generalizing g with
  | zero =>
    simp only [RunAllTasks.loop, utils.RunAllTasks.loop, Globals.view, List.length_map]
    split
    · exact ⟨rfl, rfl, rfl, hg⟩
    · exact ⟨rfl, rfl, rfl, hg⟩
  | succ n ih =>
    simp only [RunAllTasks.loop, utils.RunAllTasks.loop, Globals.view, List.length_map]
    split
    · apply Run.agrees_andThen (RunAllTasks.range_agrees env henv g.TaskList hg g hg)
      intro g1 hm hq
      have h := ih g1 hq
      rw [hm] at h
      exact h
    · exact ⟨rfl, rfl, rfl, hg⟩

/-- On a queue whose slices have no spare capacity (nil slices, slice
literals), with inline functions that append such tasks only, `RunAllTasks`
on backing arrays produces the events of `utils.RunAllTasks` on the elements of
the tasks, ends in the same way with the same queue, and leaves the backing
arrays as they are. -/
theorem RunAllTasks_agrees {σ : Type} (env : Env σ) (options : RunAllTasksOptions)
    (henv : ∀ f t w, ∀ u ∈ (env.call f t w).added, u.full) (fuel : Nat) (g : Globals σ)
    (hg : ∀ t ∈ g.TaskList, t.full) :
    (RunAllTasks env options fuel g).trace =
      (utils.RunAllTasks (env.view g.memory) options fuel g.view).trace ∧
    (RunAllTasks env options fuel g).outcome.view =
      (utils.RunAllTasks (env.view g.memory) options fuel g.view).outcome ∧
    (RunAllTasks env options fuel g).outcome.state.memory = g.memory := by
  simp only [RunAllTasks, utils.RunAllTasks, Globals.view, List.length_map]
  split
  · exact ⟨rfl, rfl, rfl⟩
  · obtain ⟨h1, h2, h3, _⟩ := RunAllTasks.loop_agrees env henv fuel g hg
    exact ⟨h1, h2, h3⟩

/-! ## In-place `append` on a shared backing array -/

/-- Claim C1 fails on the code.  The queue holds `Task{Tasks: base, Task: F2}`
and `Task{Tasks: append(base, F3), Task: F4}` with `base` of length 1 and
capacity 4 showing F1: the two slices are on one backing array and show F1,
and F1, F3.  Every step succeeds and nothing is appended to the queue.  The
run returns with an empty queue, but the `append` of the primary function of
the first task stores F2 in the cell of F3: the second task runs F1, F2, F4,
and F3, one of its listed functions, is never run. -/
theorem RunAllTasks_shared_array_drops_function :
    (firstShared.view sharedMemory).Tasks = some [1] ∧ firstShared.Task = some 2 ∧
    (secondShared.view sharedMemory).Tasks = some [1, 3] ∧ secondShared.Task = some 4 ∧
    (RunAllTasks quietEnv DefaultRunAllTasksOptions 1
      ⟨[firstShared, secondShared], sharedMemory, ()⟩).outcome.isReturned = true ∧
    (RunAllTasks quietEnv DefaultRunAllTasksOptions 1
      ⟨[firstShared, secondShared], sharedMemory, ()⟩).outcome.state.TaskList = [] ∧
    steps (RunAllTasks quietEnv DefaultRunAllTasksOptions 1
      ⟨[firstShared, secondShared], sharedMemory, ()⟩).trace =
      [.func 1 ⟨"First", false, InfoLevel, WarnLevel⟩,
       .func 2 ⟨"First", false, InfoLevel, WarnLevel⟩,
       .func 1 ⟨"Second", false, InfoLevel, WarnLevel⟩,
       .func 2 ⟨"Second", false, InfoLevel, WarnLevel⟩,
       .func 4 ⟨"Second", false, InfoLevel, WarnLevel⟩] := by
  decide

/-- Claim C7 fails on the code.  When `secondShared`, declared with the listed
functions F1, F3 and the primary function F4, is taken from the queue after
`firstShared`, its slice shows F1, F2: the body of `RunAllTasks` executes F1,
F2, F4 and not the listed functions followed by the primary one. -/
theorem iteration_shared_array_replaces_listed_function :
    (secondShared.view sharedMemory).Tasks = some [1, 3] ∧ secondShared.Task = some 4 ∧
    (RunAllTasks.range quietEnv [firstShared, secondShared]
      ⟨[firstShared, secondShared], sharedMemory, ()⟩).trace =
      (RunAllTasks.iteration quietEnv firstShared
        ⟨[firstShared, secondShared], sharedMemory, ()⟩).trace ++
      (RunAllTasks.iteration quietEnv secondShared afterFirstShared).trace ∧
    (secondShared.view afterFirstShared.memory).Tasks = some [1, 2] ∧
    steps (RunAllTasks.iteration quietEnv secondShared afterFirstShared).trace =
      [.func 1 ⟨"Second", false, InfoLevel, WarnLevel⟩,
       .func 2 ⟨"Second", false, InfoLevel, WarnLevel⟩,
       .func 4 ⟨"Second", false, InfoLevel, WarnLevel⟩] := by
  decide

end utils.mem

namespace pipe

/-! ## Check of the registry response -/

/-- Claim C9, as the code has it.  When the file is read, the request is sent
and the response has status 200 and decodes to `b`, the function ends fatally
exactly when the full description differs from the file content, or the local
description is non-empty and differs from the returned description; otherwise
it returns nil. -/
theorem TaskUpdateDockerReadme_status_200 (Pipe : Plugin) (token : String)
    (deps : Collaborators) (t : utils.Task) (readme request response : String)
    (b : DockerHubUpdateReadmeResponse)
    (hfile : deps.readFile Pipe.ReadmeFile = .ok readme)
    (hmarshal : deps.marshal
      { Readme := readme,
        Description := if Pipe.ReadmeDescription != "" then Pipe.ReadmeDescription else "" } =
      .ok request)
    (hreq : deps.newRequest (Pipe.DockerHubAddress ++ "/" ++ Pipe.ReadmeRepository ++ "/") = none)
    (hsend : deps.send (Pipe.DockerHubAddress ++ "/" ++ Pipe.ReadmeRepository ++ "/") request
      token = .ok (200, .ok response))
    (hdecode : deps.unmarshal response = .ok b) :
    ((TaskUpdateDockerReadme Pipe token deps t).2 = .fatal ↔
      (b.FullDescription ≠ readme ∨
        (Pipe.ReadmeDescription ≠ "" ∧ b.Description ≠ Pipe.ReadmeDescription))) ∧
    (¬ (b.FullDescription ≠ readme ∨
        (Pipe.ReadmeDescription ≠ "" ∧ b.Description ≠ Pipe.ReadmeDescription)) →
      (TaskUpdateDockerReadme Pipe token deps t).2 = .returned none) := by
  have hupd : (if (Pipe.ReadmeDescription != "") = true then
      ({ Readme := readme, Description := Pipe.ReadmeDescription } :
        DockerHubUpdateReadmeRequest)
      else { Readme := readme, Description := "" }) =
      { Readme := readme,
        Description := if Pipe.ReadmeDescription != "" then Pipe.ReadmeDescription else "" } := by
    split <;> rfl
  unfold TaskUpdateDockerReadme
  simp only [hfile, hupd, hmarshal, hreq, hsend, hdecode,
    TaskUpdateDockerReadme.statusSwitch]
  by_cases h1 : b.FullDescription = readme <;>
    by_cases h2 : Pipe.ReadmeDescription = "" <;>
    by_cases h3 : b.Description = Pipe.ReadmeDescription <;>
    simp [h1, h2, h3]

/-- Witness of `TaskUpdateDockerReadme_status_200`: matching fields. -/
theorem TaskUpdateDockerReadme_status_200_witness :
    (TaskUpdateDockerReadme ⟨"README.md", "user/image", "An image", "https://hub"⟩ "jwt"
        (answering "# Image" 200 ⟨true, "An image", "# Image"⟩) updateTask).2 =
      .returned none :=
  (TaskUpdateDockerReadme_status_200 ⟨"README.md", "user/image", "An image", "https://hub"⟩
    "jwt" (answering "# Image" 200 ⟨true, "An image", "# Image"⟩) updateTask
    "# Image" "request" "response" ⟨true, "An image", "# Image"⟩
    rfl rfl rfl rfl rfl).2 (by decide)

/-- Claim C9 fails as stated: with an empty local description and a response of
status 200 whose full description equals the file content but whose
description is "old text", the function returns nil although the returned
description differs from the local one. -/
theorem TaskUpdateDockerReadme_empty_description_not_compared :
    (TaskUpdateDockerReadme ⟨"README.md", "user/image", "", "https://hub"⟩ "jwt"
        (answering "# Image" 200 ⟨true, "old text", "# Image"⟩) updateTask).2 =
      .returned none ∧
    ("old text" : String) ≠ "" := by
  decide

end pipe
